import Mathlib

/-! Verification of the geom2 2D geometry kernel.

This file gives a shallow embedding, over the real numbers, of the Rust
sources of the `geom2` crate (2D geometric primitives: half-planes, lines,
segments, circles, arcs, polygons, and their intersection algebra), and
proves or refutes the claims of the specification against that embedding.

Modelling notes:
* `f32` arithmetic is embedded as real arithmetic; the global tolerance
  constant `EPS = 1e-8` is kept.
* Rust `f32::signum` maps positive values (including `+0.0`) to `1.0` and
  negative values to `-1.0`; on reals this is embedded as
  `if 0 ≤ t then 1 else -1` (an exact zero produced by cancellation is
  `+0.0` in IEEE arithmetic, whose sign is positive).
* `Option::unwrap` on a `None` would panic in Rust; the embedding returns a
  junk value in that case (the claims never evaluate it on `None`).
* The source snapshot mixes revisions; each definition is translated from
  the file the claims cite, as noted in its doc comment.
-/

noncomputable section

namespace Geom2

/-- Global tolerance constant from `lib.rs`: `pub const EPS: f32 = 1e-8`. -/
def EPS : ℝ := 1 / 100000000

/-- The 2D vector type (external collaborator `glam::Vec2`), embedded over ℝ. -/
structure Vec2 where
  x : ℝ
  y : ℝ

def Vec2.add (a b : Vec2) : Vec2 := ⟨a.x + b.x, a.y + b.y⟩

instance : Add Vec2 := ⟨Vec2.add⟩

def Vec2.sub (a b : Vec2) : Vec2 := ⟨a.x - b.x, a.y - b.y⟩

instance : Sub Vec2 := ⟨Vec2.sub⟩

def Vec2.neg (a : Vec2) : Vec2 := ⟨-a.x, -a.y⟩

instance : Neg Vec2 := ⟨Vec2.neg⟩

/-- Scalar multiplication `t * v` and `v * t`. -/
def Vec2.smul (t : ℝ) (a : Vec2) : Vec2 := ⟨t * a.x, t * a.y⟩

instance : HMul ℝ Vec2 Vec2 := ⟨Vec2.smul⟩

instance : HMul Vec2 ℝ Vec2 := ⟨fun a t => Vec2.smul t a⟩

instance : HDiv Vec2 ℝ Vec2 := ⟨fun a t => Vec2.smul t⁻¹ a⟩

/-- `glam::Vec2::dot`. -/
def Vec2.dot (a b : Vec2) : ℝ := a.x * b.x + a.y * b.y

/-- `glam::Vec2::perp_dot`, the 2D scalar cross product. -/
def Vec2.perp_dot (a b : Vec2) : ℝ := a.x * b.y - a.y * b.x

/-- `glam::Vec2::perp`, counterclockwise rotation by 90 degrees. -/
def Vec2.perp (a : Vec2) : Vec2 := ⟨-a.y, a.x⟩

/-- `glam::Vec2::length_squared`. -/
def Vec2.length_squared (a : Vec2) : ℝ := a.x ^ 2 + a.y ^ 2

/-- `glam::Vec2::length`. -/
def Vec2.length (a : Vec2) : ℝ := Real.sqrt (a.x ^ 2 + a.y ^ 2)

/-- `glam::Vec2::normalize`. -/
def Vec2.normalize (a : Vec2) : Vec2 := a / a.length

/-- `v.abs().max_element()`, used for degeneracy checks. -/
def Vec2.abs_max (a : Vec2) : ℝ := max |a.x| |a.y|

/-- `glam::Vec2::lerp`: `a + (b - a) * t`. -/
def Vec2.lerp (a b : Vec2) (t : ℝ) : Vec2 := a + (b - a) * t

/-- Rust `f32::signum` embedded on reals (zero counts as positive, see header). -/
def sgn (t : ℝ) : ℝ := if 0 ≤ t then 1 else -1

/-- `Moment` from `lib.rs`: area (zeroth moment) and centroid (first moment). -/
structure Moment where
  area : ℝ
  centroid : Vec2

/-- `Moment::default()`: zero area, zero centroid. -/
def Moment.zero : Moment := ⟨0, ⟨0, 0⟩⟩

/-- `Moment::merge` from `lib.rs`: add areas; if the combined area is below
`EPS` return the default moment, else take the area-weighted centroid. -/
def Moment.merge (m o : Moment) : Moment :=
  let area := m.area + o.area
  if |area| < EPS then Moment.zero
  else ⟨area, (m.centroid * m.area + o.centroid * o.area) / area⟩

/-! ### Lines and segments (`line.rs`) -/

/-- `Line` from `line.rs`: infinite line through two points. -/
structure Line where
  p0 : Vec2
  p1 : Vec2

/-- `LineSegment` from `line.rs`: segment bounded by two points. -/
structure LineSegment where
  p0 : Vec2
  p1 : Vec2

/-- `impl Intersect<Line> for Line` from `line.rs`. -/
def Line.intersectLine (self other : Line) : Option Vec2 :=
  let p := self.p0
  let q := other.p0
  let r := self.p1 - self.p0
  let s := other.p1 - other.p0
  let pq := q - p
  let den := r.perp_dot s
  let pqr := pq.perp_dot r
  let pqs := pq.perp_dot s
  if EPS < |den| then
    some (Vec2.lerp self.p0 self.p1 (pqs / den))
  else
    if EPS < r.abs_max then
      if EPS < s.abs_max then
        -- Lines are parallel
        if |pqs| < EPS then some p else none
      else
        -- Line `other` is degenerate
        if |pqr| < EPS then some q else none
    else
      if EPS < s.abs_max then
        -- Line `self` is degenerate
        if |pqs| < EPS then some p else none
      else
        -- Both lines are degenerate
        if pq.abs_max < EPS then some p else none

/-- `impl Intersect<Line> for LineSegment` from `line.rs`. -/
def LineSegment.intersectLine (self : LineSegment) (other : Line) : Option Vec2 :=
  let p := self.p0
  let q := other.p0
  let r := self.p1 - self.p0
  let s := other.p1 - other.p0
  let pq := q - p
  let den := r.perp_dot s
  let pqr := pq.perp_dot r
  let pqs := pq.perp_dot s
  if EPS < |den| then
    let u := pqs / den
    if -EPS ≤ u ∧ u ≤ 1 + EPS then some (Vec2.lerp self.p0 self.p1 u) else none
  else
    if EPS < r.abs_max then
      if EPS < s.abs_max then
        -- Segment is parallel to the line
        if |pqs| < EPS then some (p + (0.5 : ℝ) * r) else none
      else
        -- Line `other` is degenerate
        let u := pq.dot r / r.length_squared
        if |pqr| < EPS ∧ -EPS ≤ u ∧ u ≤ 1 + EPS then some q else none
    else
      if EPS < s.abs_max then
        -- Segment `self` is degenerate
        if |pqs| < EPS then some p else none
      else
        -- Both are degenerate
        if pq.abs_max < EPS then some p else none

/-- `impl Intersect<LineSegment> for Line` from `line.rs`: delegation. -/
def Line.intersectSegment (self : Line) (other : LineSegment) : Option Vec2 :=
  other.intersectLine self

/-- `impl Intersect<LineSegment> for LineSegment` from `line.rs`. -/
def LineSegment.intersectSegment (self other : LineSegment) : Option Vec2 :=
  let p := self.p0
  let q := other.p0
  let r := self.p1 - self.p0
  let s := other.p1 - other.p0
  let pq := q - p
  let den := r.perp_dot s
  let pqr := pq.perp_dot r
  let pqs := pq.perp_dot s
  if EPS < |den| then
    let u := pqs / den
    let v := pqr / den
    if (-EPS ≤ u ∧ u ≤ 1 + EPS) ∧ (-EPS ≤ v ∧ v ≤ 1 + EPS) then
      some (Vec2.lerp self.p0 self.p1 u)
    else none
  else
    if EPS < r.abs_max then
      if EPS < s.abs_max then
        -- Segments are parallel
        if |pqr| < EPS then
          -- Collinear: overlap interval of projections onto `r`
          let t0 := pq.dot r / r.length_squared
          let t1 := (pq + s).dot r / r.length_squared
          let tmin := min t0 t1
          let tmax := max t0 t1
          if tmax < -EPS ∨ 1 + EPS < tmin then none
          else
            let ostart := max tmin 0
            let oend := min tmax 1
            some (self.p0 + r * ((ostart + oend) * (0.5 : ℝ)))
        else none
      else
        -- Segment `other` is degenerate
        let u := pq.dot r / r.length_squared
        if |pqr| < EPS ∧ -EPS ≤ u ∧ u ≤ 1 + EPS then some q else none
    else
      if EPS < s.abs_max then
        -- Segment `self` is degenerate
        let v := -(pq.dot s) / s.length_squared
        if |pqs| < EPS ∧ -EPS ≤ v ∧ v ≤ 1 + EPS then some p else none
      else
        -- Both segments are degenerate
        if pq.abs_max < EPS then some p else none

/-! ### Half-planes (`plane.rs`) -/

/-- `HalfPlane` from `plane.rs`: unit normal pointing from free space to
occupied space, and offset of the boundary from the origin. -/
structure HalfPlane where
  normal : Vec2
  offset : ℝ

/-- `HalfPlane::from_normal` from `plane.rs`. -/
def HalfPlane.from_normal (point normal : Vec2) : HalfPlane :=
  ⟨normal, point.dot normal⟩

/-- `HalfPlane::from_edge` from `plane.rs`. -/
def HalfPlane.from_edge (a b : Vec2) : HalfPlane :=
  HalfPlane.from_normal a ((b - a).perp.normalize)

/-- `HalfPlane::distance` from `plane.rs` (per its doc comment, positive when
the point is inside the half-plane). -/
def HalfPlane.distance (hp : HalfPlane) (point : Vec2) : ℝ :=
  point.dot hp.normal - hp.offset

/-- `HalfPlane::boundary_point` from `plane.rs`. -/
def HalfPlane.boundary_point (hp : HalfPlane) : Vec2 :=
  hp.normal * hp.offset

/-- `HalfPlane::edge` from `plane.rs`. -/
def HalfPlane.edge (hp : HalfPlane) : Line :=
  ⟨hp.boundary_point, hp.boundary_point - hp.normal.perp⟩

/-- `impl Bound for HalfPlane` from `plane.rs`:
`self.distance(point).signum() as i32`. -/
def HalfPlane.winding_number_2 (hp : HalfPlane) (point : Vec2) : ℤ :=
  if 0 ≤ hp.distance point then 1 else -1

/-- The `contains` default of the winding trait (`lib.rs`):
true when the doubled winding number is positive. -/
def HalfPlane.contains (hp : HalfPlane) (point : Vec2) : Bool :=
  decide (0 < hp.winding_number_2 point)

/-! ### Circles, arcs and disk segments (`circle.rs` / `arc.rs`) -/

/-- `Circle` from `circle.rs`. -/
structure Circle where
  center : Vec2
  radius : ℝ

/-- `impl Bounded for Circle` from `circle.rs`:
winding is `2 * radius.signum()` for points inside, else `0`. -/
def Circle.winding_number_2 (c : Circle) (point : Vec2) : ℤ :=
  if (c.center - point).length_squared ≤ c.radius ^ 2 then
    if 0 ≤ c.radius then 2 else -2
  else 0

/-- `Closed::contains` for `Circle`. -/
def Circle.contains (c : Circle) (point : Vec2) : Bool :=
  decide (0 < c.winding_number_2 point)

/-- `impl Integrate for Circle` from `circle.rs`. -/
def Circle.moment (c : Circle) : Moment :=
  ⟨Real.pi * c.radius ^ 2, c.center⟩

/-- `Arc` from `arc.rs` / `circle.rs`: chord end points and signed sagitta. -/
structure Arc where
  points : Vec2 × Vec2
  sagitta : ℝ

/-- `ArcVertex` from `arc.rs` / `circle.rs`: start point of an arc with its
sagitta. -/
structure ArcVertex where
  point : Vec2
  sagitta : ℝ

/-- `DiskSegment` from `arc.rs` (named `CircleSegment` in the `circle.rs`
revision, with identical code): region bounded by an arc and its chord. -/
structure DiskSegment where
  arc : Arc

/-- `impl Bounded for DiskSegment` from `arc.rs`. -/
def DiskSegment.winding_number_2 (seg : DiskSegment) (point : Vec2) : ℤ :=
  let a := seg.arc.points.1
  let b := seg.arc.points.2
  let c := (0.5 : ℝ) * (a + b)
  let s := |seg.arc.sagitta|
  if s < EPS then 0
  else
    let h := (0.5 : ℝ) * (b - a).length
    let radius := (h ^ 2 + s ^ 2) / (2 * s)
    let normal := -(b - a).perp / (2 * h) * sgn seg.arc.sagitta
    let center := c + normal * (s - radius)
    if (Circle.mk center radius).contains point = true ∧ 0 < (point - c).dot normal then
      if 0 ≤ seg.arc.sagitta then 2 else -2
    else 0

/-- `Closed::contains` for `DiskSegment`. -/
def DiskSegment.contains (seg : DiskSegment) (point : Vec2) : Bool :=
  decide (0 < seg.winding_number_2 point)

/-- `APPROX_CIRCLE` from `arc.rs`: maximum sagitta/radius ratio for the
parabola approximation. -/
def APPROX_CIRCLE : ℝ := 1 / 10000

/-- `impl Integrate for DiskSegment` from `arc.rs` (lines 89-127): exact
trigonometric disk-segment moment with a parabolic fallback for near-zero
or near-full segments. -/
def DiskSegment.moment (seg : DiskSegment) : Moment :=
  let a := seg.arc.points.1
  let b := seg.arc.points.2
  let c := (0.5 : ℝ) * (a + b)
  let s := |seg.arc.sagitta|
  if s < EPS then ⟨0, c⟩
  else
    let h := (0.5 : ℝ) * (b - a).length
    let radius := (h ^ 2 + s ^ 2) / (2 * s)
    let cosine := 1 - s / radius
    let sine := h / radius
    let ao : ℝ × ℝ :=
      if APPROX_CIRCLE * radius < s then
        let area := Real.arccos cosine - cosine * sine
        (area, 2 / 3 * sine ^ 3 / area)
      else
        -- Approximate circle by parabola
        let y := 1 - |cosine|
        let area := 4 / 3 * Real.sqrt (2 * y) * y
        let offset := 1 - 3 / 10 * y
        if 0 < cosine then (area, offset)
        else (Real.pi - area, -offset * area / (Real.pi - area))
    let normal := -(b - a).perp / (2 * h) * sgn seg.arc.sagitta
    ⟨ao.1 * radius ^ 2, c + normal * (s + radius * (ao.2 - 1))⟩

/-- `impl Intersect<HalfPlane> for Circle` from `circle.rs` (lines 164-184).
`Sum.inl` is the clipped disk-segment variant (`Either::Left`), `Sum.inr`
the fully-inside whole-circle variant (`Either::Right`). -/
def Circle.intersectHalfPlane (self : Circle) (other : HalfPlane) :
    Option (DiskSegment ⊕ Circle) :=
  let normal := other.normal
  let apothem := -(other.distance self.center)
  if self.radius < apothem then none
  else if apothem < -self.radius then some (Sum.inr self)
  else
    let h := Real.sqrt (self.radius ^ 2 - apothem ^ 2)
    let m := self.center + apothem * normal
    some (Sum.inl ⟨⟨(m + normal.perp * h, m - normal.perp * h), self.radius - apothem⟩⟩)

/-- `impl Intersect<Circle> for Circle` from `circle.rs` (lines 186-228):
`Sum.inl` carries the 2-vertex arc lens, `Sum.inr` the contained circle. -/
def Circle.intersect (self other : Circle) : Option (List ArcVertex ⊕ Circle) :=
  let rel_pos := other.center - self.center
  let distance := rel_pos.length
  if distance < self.radius + other.radius then
    if |self.radius - other.radius| < distance then
      let dir := rel_pos / distance
      let self_apothem :=
        (0.5 : ℝ) * (distance + (self.radius ^ 2 - other.radius ^ 2) / distance)
      let other_apothem := distance - self_apothem
      let h := Real.sqrt (self.radius ^ 2 - self_apothem ^ 2)
      let m := self.center + dir * self_apothem
      some (Sum.inl
        [⟨m - dir.perp * h, self.radius - self_apothem⟩,
         ⟨m + dir.perp * h, other.radius - other_apothem⟩])
    else
      -- One circle is inside another
      if self.radius < other.radius then some (Sum.inr self) else some (Sum.inr other)
  else none

/-! ### Polygons (`polygon/mod.rs`, `polygon/line.rs`, `polygon/circle.rs`)

A polygon is embedded as the list of its vertices; `Polygon::edges` yields
the cyclic consecutive pairs (each vertex with its successor, wrapping
around). -/

/-- Cyclic consecutive pairs, matching `Polygon::edges` of `polygon/mod.rs`. -/
def cyclicPairs {α : Type} (l : List α) : List (α × α) :=
  l.zip (l.rotateLeft 1)

/-- One edge term of the straight-polygon winding number
(`impl Bounded for Polygon` in `polygon/line.rs`). -/
def windingTerm (point : Vec2) (e : Vec2 × Vec2) : ℤ :=
  let v0 := e.1
  let v1 := e.2
  if v0.y ≤ point.y then
    if point.y < v1.y then
      if 0 < (v1 - v0).perp_dot (point - v0) then 1 else 0
    else 0
  else
    if v1.y ≤ point.y then
      if (v1 - v0).perp_dot (point - v0) < 0 then -1 else 0
    else 0

/-- `impl Bounded for Polygon` from `polygon/line.rs`: crossing-number walk
over the edges. -/
def Polygon.winding_number_2 (vs : List Vec2) (point : Vec2) : ℤ :=
  ((cyclicPairs vs).map (windingTerm point)).sum

/-- `Closed::contains` for a straight polygon. -/
def Polygon.contains (vs : List Vec2) (point : Vec2) : Bool :=
  decide (0 < Polygon.winding_number_2 vs point)

/-- `impl Integrate for Polygon` from `polygon/line.rs`: shoelace formula. -/
def Polygon.moment (vs : List Vec2) : Moment :=
  let acc := (cyclicPairs vs).foldl
    (fun (p : ℝ × Vec2) e =>
      let cross := e.1.perp_dot e.2
      (p.1 + cross, p.2 + (e.1 + e.2) * cross))
    (0, ⟨0, 0⟩)
  let area := |acc.1| * (0.5 : ℝ)
  if area < EPS then ⟨area, ⟨0, 0⟩⟩ else ⟨area, acc.2 / (6 * area)⟩

/-- Arc edges of an `ArcPolygon` (`Edge::from_vertices` for `Arc`):
each edge takes its sagitta from its starting vertex. -/
def ArcPolygon.edges (vs : List ArcVertex) : List Arc :=
  (cyclicPairs vs).map (fun e => ⟨(e.1.point, e.2.point), e.1.sagitta⟩)

/-- `impl Closed for ArcPolygon` from `polygon/circle.rs`: chord-polygon
winding plus the winding of one disk segment per arc edge. -/
def ArcPolygon.winding_number_2 (vs : List ArcVertex) (point : Vec2) : ℤ :=
  Polygon.winding_number_2 (vs.map ArcVertex.point) point +
    ((ArcPolygon.edges vs).map (fun a => DiskSegment.winding_number_2 ⟨a⟩ point)).sum

/-- `impl Integrable for ArcPolygon` from `polygon/circle.rs`: chord-polygon
moment merged with one disk-segment moment per arc edge, in edge order. -/
def ArcPolygon.moment (vs : List ArcVertex) : Moment :=
  (ArcPolygon.edges vs).foldl
    (fun m a => m.merge (DiskSegment.moment ⟨a⟩))
    (Polygon.moment (vs.map ArcVertex.point))

/-! ### Generic winding / moment lifting (`lib.rs`, lines 169-203) -/

/-- `impl<T: Closed> Closed for Option<T>` from `lib.rs`: `None` has winding
number `0`. -/
def windingOfOption {α : Type} (w : α → Vec2 → ℤ) : Option α → Vec2 → ℤ
  | some shape, point => w shape point
  | none, _ => 0

/-- `impl<T: Integrable> Integrable for Option<T>` from `lib.rs`: `None` has
the default (zero) moment. -/
def momentOfOption {α : Type} (mo : α → Moment) : Option α → Moment
  | some shape => mo shape
  | none => Moment.zero

/-- The `contains` default of the `Closed` trait (`lib.rs`), for any winding
function. -/
def containsOfWinding {α : Type} (w : α → Vec2 → ℤ) (shape : α) (point : Vec2) : Bool :=
  decide (0 < w shape point)

/-- `impl Closed for Either<L, R>` from `lib.rs`. -/
def windingOfSum {α β : Type} (wl : α → Vec2 → ℤ) (wr : β → Vec2 → ℤ) :
    α ⊕ β → Vec2 → ℤ
  | Sum.inl l, point => wl l point
  | Sum.inr r, point => wr r point

/-- `impl Integrable for Either<L, R>` from `lib.rs`. -/
def momentOfSum {α β : Type} (ml : α → Moment) (mr : β → Moment) : α ⊕ β → Moment
  | Sum.inl l => ml l
  | Sum.inr r => mr r

/-- Winding number of a `Circle ∩ Circle` result
(`Option<Either<ArcPolygon, Circle>>`), composing the `lib.rs` liftings. -/
def circleIntersectWinding (o : Option (List ArcVertex ⊕ Circle)) (point : Vec2) : ℤ :=
  windingOfOption (windingOfSum ArcPolygon.winding_number_2 Circle.winding_number_2) o point

/-- Moment of a `Circle ∩ Circle` result, composing the `lib.rs` liftings. -/
def circleIntersectMoment (o : Option (List ArcVertex ⊕ Circle)) : Moment :=
  momentOfOption (momentOfSum ArcPolygon.moment Circle.moment) o

/-- Componentwise approximate equality of moments with tolerance `tol`,
as the `approx` feature's `abs_diff_eq` does for `Moment` (area and both
centroid components within `tol`). -/
def MomentApproxEq (tol : ℝ) (m o : Moment) : Prop :=
  |m.area - o.area| ≤ tol ∧ |m.centroid.x - o.centroid.x| ≤ tol ∧
    |m.centroid.y - o.centroid.y| ≤ tol

/-! ### Clipping a polygon against a half-plane (`polygon/line.rs`) -/

/-- One step of the Sutherland-Hodgman walk of
`impl IntersectTo<HalfPlane, Polygon> for Polygon` (`polygon/line.rs`,
lines 70-104), classifying the directed edge `(prev, v)`. The `unwrap` of
the edge intersection is embedded as `getD` with a junk default. -/
def clipStep (plane : HalfPlane) (prev v : Vec2) : List Vec2 :=
  match plane.contains prev, plane.contains v with
  | true, true => [v]
  | true, false => [(plane.edge.intersectSegment ⟨prev, v⟩).getD ⟨0, 0⟩]
  | false, true => [(plane.edge.intersectSegment ⟨prev, v⟩).getD ⟨0, 0⟩, v]
  | false, false => []

/-- The full vertex walk of `intersect_to` against a half-plane: the edge
pairs start from the last vertex, and each pair contributes its `clipStep`
output. -/
def clipWalk (vs : List Vec2) (plane : HalfPlane) : List Vec2 :=
  match vs.getLast? with
  | none => []
  | some lastV => ((lastV :: vs).zip vs).flatMap (fun e => clipStep plane e.1 e.2)

/-- `impl IntersectTo<HalfPlane, Polygon> for Polygon` from `polygon/line.rs`
(lines 67-105): `None` for the empty polygon, otherwise the raw walk output,
or `None` when the walk emits nothing. -/
def Polygon.intersectPlane (vs : List Vec2) (plane : HalfPlane) : Option (List Vec2) :=
  match vs.getLast? with
  | none => none
  | some lastV =>
    let result := ((lastV :: vs).zip vs).flatMap (fun e => clipStep plane e.1 e.2)
    if result.isEmpty then none else some result

/-! ### Clipping a polygon against a disk (`polygon/circle.rs`) -/

/-- Modelled from the spec: the `Disk` type (a circle treated as the filled
region it bounds) is missing from the src snapshot; only `polygon/circle.rs`,
`arc.rs` and the tests use it. Containment is the filled-circle test. -/
structure Disk where
  center : Vec2
  radius : ℝ

/-- Modelled from the spec: `Disk` containment is the filled-circle test of
`Circle` (`circle.rs`). -/
def Disk.contains (d : Disk) (point : Vec2) : Bool :=
  (Circle.mk d.center d.radius).contains point

/-- Modelled from the spec: `Disk::edge` returns the boundary `Circle`. -/
def Disk.edge (d : Disk) : Circle := ⟨d.center, d.radius⟩

/-- Modelled from the spec: `Circle ∩ Line` is missing from the src snapshot.
Per spec section 4.4 it reduces to `Circle ∩ HalfPlane` built from the line
via `from_edge`: a clipped arc yields the two chord endpoints in reversed
order (to follow the line's own direction); otherwise, when the apothem
magnitude equals the radius within `EPS`, the single tangent point is
returned as a degenerate pair, else there is no intersection. -/
def Circle.intersectLine (c : Circle) (l : Line) : Option (Vec2 × Vec2) :=
  let hp := HalfPlane.from_edge l.p0 l.p1
  let apothem := -(hp.distance c.center)
  match c.intersectHalfPlane hp with
  | some (Sum.inl seg) => some (seg.arc.points.2, seg.arc.points.1)
  | _ =>
    if abs (|apothem| - c.radius) < EPS then
      let m := c.center + apothem * hp.normal
      some (m, m)
    else none

/-- Modelled from the spec: parameter-range test of a point along a segment,
with `EPS` slack, used by `Circle ∩ LineSegment`. -/
def segParamOk (s : LineSegment) (p : Vec2) : Bool :=
  let r := s.p1 - s.p0
  let t := (p - s.p0).dot r / r.length_squared
  decide (-EPS ≤ t ∧ t ≤ 1 + EPS)

/-- Modelled from the spec: `Circle ∩ LineSegment` is missing from the src
snapshot. Per spec section 4.4 it computes `Circle ∩ Line` and then keeps
each of the two points independently iff its parameter lies within the
segment's range. -/
def Circle.intersectSegment (c : Circle) (s : LineSegment) :
    Option (Option Vec2 × Option Vec2) :=
  (c.intersectLine ⟨s.p0, s.p1⟩).map (fun pq =>
    (if segParamOk s pq.1 then some pq.1 else none,
     if segParamOk s pq.2 then some pq.2 else none))

/-- Modelled from the spec: `Line::signed_distance` is missing from the src
snapshot; per the glossary (apothem) it is the signed perpendicular distance
from the line to the point, with the `from_edge` orientation. -/
def Line.signed_distance (l : Line) (point : Vec2) : ℝ :=
  (HalfPlane.from_edge l.p0 l.p1).distance point

/-- State of the polygon-against-disk clipping walk of `polygon/circle.rs`
(lines 56-169): previous vertex and its containment, the first/last chord
crossing points, and the vertices emitted so far. -/
structure DiskClipState where
  prev : Vec2
  prevInside : Bool
  first : Option Vec2
  last : Option Vec2
  acc : List ArcVertex

/-- One iteration of the `flat_map` walk of
`impl IntersectTo<Disk, ArcPolygon> for Polygon` (`polygon/circle.rs`),
classifying the edge `(prev, v)` by the containment of its endpoints.
`unwrap` is embedded as `getD` with a junk default. -/
def diskClipStep (disk : Disk) (st : DiskClipState) (v : Vec2) : DiskClipState :=
  let inside := disk.contains v
  match st.prevInside, inside with
  | true, true =>
    { st with
      prev := v
      prevInside := inside
      acc := st.acc ++ [⟨st.prev, 0⟩] }
  | true, false =>
    let pts := (disk.edge.intersectLine ⟨st.prev, v⟩).getD (⟨0, 0⟩, ⟨0, 0⟩)
    { st with
      prev := v
      prevInside := inside
      last := some pts.2
      acc := st.acc ++ [⟨st.prev, 0⟩] }
  | false, true =>
    let clip := ((disk.edge.intersectLine ⟨st.prev, v⟩).getD (⟨0, 0⟩, ⟨0, 0⟩)).1
    match st.last with
    | some l =>
      { st with
        prev := v
        prevInside := inside
        acc := st.acc ++
          [⟨l, disk.radius - Line.signed_distance ⟨l, clip⟩ disk.center⟩, ⟨clip, 0⟩] }
    | none =>
      { st with
        prev := v
        prevInside := inside
        first := if st.first.isNone then some clip else st.first
        acc := st.acc ++ [⟨clip, 0⟩] }
  | false, false =>
    match disk.edge.intersectSegment ⟨st.prev, v⟩ with
    | some (some a, some b) =>
      (match st.last with
       | some l =>
         { st with
           prev := v
           prevInside := inside
           last := some b
           acc := st.acc ++
             [⟨l, disk.radius - Line.signed_distance ⟨l, a⟩ disk.center⟩, ⟨a, 0⟩] }
       | none =>
         { st with
           prev := v
           prevInside := inside
           last := some b
           first := if st.first.isNone then some a else st.first
           acc := st.acc ++ [⟨a, 0⟩] })
    | _ =>
      { st with
        prev := v
        prevInside := inside }

/-- `impl IntersectTo<Disk, ArcPolygon> for Polygon` from `polygon/circle.rs`
(lines 56-169): the clipping walk starts at the first vertex and runs over
the remaining vertices followed by the first again; afterwards consecutive
vertices closer than `EPS` (wrapping around) are dropped, and an empty
result becomes `None`. -/
def Polygon.intersectDisk (vs : List Vec2) (disk : Disk) : Option (List ArcVertex) :=
  match vs with
  | [] => none
  | v0 :: rest =>
    let st0 : DiskClipState := ⟨v0, disk.contains v0, none, none, []⟩
    let stF := (rest ++ [v0]).foldl (diskClipStep disk) st0
    match stF.acc with
    | [] => none
    | e0 :: erest =>
      let dedup := ((e0 :: erest).zip (erest ++ [e0])).filterMap
        (fun pv => if EPS < (pv.1.point - pv.2.point).abs_max then some pv.1 else none)
      if dedup.isEmpty then none else some dedup

/-- The first vertex of the arc lens produced by the lens branch of
`impl Intersect<Circle> for Circle` (`circle.rs`); an abbreviation of the
code's own output expression, used in the symmetry proofs. -/
def lensV0 (c1 c2 : Circle) : ArcVertex :=
  let rel_pos := c2.center - c1.center
  let distance := rel_pos.length
  let dir := rel_pos / distance
  let self_apothem := (0.5 : ℝ) * (distance + (c1.radius ^ 2 - c2.radius ^ 2) / distance)
  let h := Real.sqrt (c1.radius ^ 2 - self_apothem ^ 2)
  let m := c1.center + dir * self_apothem
  ⟨m - dir.perp * h, c1.radius - self_apothem⟩

/-- The second vertex of the arc lens produced by the lens branch of
`impl Intersect<Circle> for Circle` (`circle.rs`). -/
def lensV1 (c1 c2 : Circle) : ArcVertex :=
  let rel_pos := c2.center - c1.center
  let distance := rel_pos.length
  let dir := rel_pos / distance
  let self_apothem := (0.5 : ℝ) * (distance + (c1.radius ^ 2 - c2.radius ^ 2) / distance)
  let h := Real.sqrt (c1.radius ^ 2 - self_apothem ^ 2)
  let m := c1.center + dir * self_apothem
  ⟨m + dir.perp * h, c2.radius - (distance - self_apothem)⟩

/-! ### Basic facts -/

@[simp] theorem Vec2.add_x (a b : Vec2) : (a + b).x = a.x + b.x := rfl

@[simp] theorem Vec2.add_y (a b : Vec2) : (a + b).y = a.y + b.y := rfl

@[simp] theorem Vec2.sub_x (a b : Vec2) : (a - b).x = a.x - b.x := rfl

@[simp] theorem Vec2.sub_y (a b : Vec2) : (a - b).y = a.y - b.y := rfl

@[simp] theorem Vec2.neg_x (a : Vec2) : (-a).x = -a.x := rfl

@[simp] theorem Vec2.neg_y (a : Vec2) : (-a).y = -a.y := rfl

@[simp] theorem Vec2.smul_left_x (t : ℝ) (a : Vec2) : (t * a).x = t * a.x := rfl

@[simp] theorem Vec2.smul_left_y (t : ℝ) (a : Vec2) : (t * a).y = t * a.y := rfl

@[simp] theorem Vec2.smul_right_x (t : ℝ) (a : Vec2) : (a * t).x = t * a.x := rfl

@[simp] theorem Vec2.smul_right_y (t : ℝ) (a : Vec2) : (a * t).y = t * a.y := rfl

@[simp] theorem Vec2.div_x (t : ℝ) (a : Vec2) : (a / t).x = t⁻¹ * a.x := rfl

@[simp] theorem Vec2.div_y (t : ℝ) (a : Vec2) : (a / t).y = t⁻¹ * a.y := rfl

@[simp] theorem Vec2.perp_x (a : Vec2) : a.perp.x = -a.y := rfl

@[simp] theorem Vec2.perp_y (a : Vec2) : a.perp.y = a.x := rfl

@[simp] theorem Vec2.mk_x (u v : ℝ) : (Vec2.mk u v).x = u := rfl

@[simp] theorem Vec2.mk_y (u v : ℝ) : (Vec2.mk u v).y = v := rfl

theorem Vec2.ext_iff {a b : Vec2} : a = b ↔ a.x = b.x ∧ a.y = b.y := by
  constructor
  · intro h; subst h; exact ⟨rfl, rfl⟩
  · intro h
    cases a
    cases b
    simp only [Vec2.mk.injEq]
    exact ⟨h.1, h.2⟩

/-- Helper: `Real.sqrt a = b` from a square witness. -/
theorem sqrt_eq_of_sq (a b : ℝ) (hb : 0 ≤ b) (h : b ^ 2 = a) : Real.sqrt a = b := by
  subst h
  exact Real.sqrt_sq hb

theorem EPS_pos : 0 < EPS := by norm_num [EPS]

theorem EPS_le_one : EPS ≤ 1 := by norm_num [EPS]

/-! ### Claim theorems -/

/-- C1 (code evaluated at the failing input): for the half-plane constructed
by `from_normal((2,3),(1,0))`, the point `(3,3)` has distance `1 > 0` and yet
`contains` returns `true` — `plane.rs` treats positive distance as inside,
contradicting the claim (and the repo's own `tests/plane.rs`, which asserts
`!plane.contains((3,3))` for this very input). -/
theorem halfplane_positive_distance_contained :
    (HalfPlane.from_normal ⟨2, 3⟩ ⟨1, 0⟩).distance ⟨3, 3⟩ = 1 ∧
      (HalfPlane.from_normal ⟨2, 3⟩ ⟨1, 0⟩).contains ⟨3, 3⟩ = true := by
  constructor
  · norm_num [HalfPlane.from_normal, HalfPlane.distance, Vec2.dot]
  · norm_num [HalfPlane.contains, HalfPlane.winding_number_2, HalfPlane.from_normal,
      HalfPlane.distance, Vec2.dot]

/-- C10: the `Option` liftings of `lib.rs` make an absent shape the empty
region: `None` has winding number `0` everywhere (hence `contains` is
`false`), and the default (zero) moment, while `Some` passes the wrapped
shape's winding number and moment through unchanged. -/
theorem option_empty_region (α : Type) (w : α → Vec2 → ℤ) (mo : α → Moment)
    (point : Vec2) (shape : α) :
    windingOfOption w none point = 0 ∧
      containsOfWinding (windingOfOption w) (none : Option α) point = false ∧
      momentOfOption mo (none : Option α) = ⟨0, ⟨0, 0⟩⟩ ∧
      windingOfOption w (some shape) point = w shape point ∧
      momentOfOption mo (some shape) = mo shape :=
  ⟨rfl, rfl, rfl, rfl, rfl⟩

/-- C2 (code evaluated at the failing input): for the externally tangent
disks centered at `(0,0)` and `(2,0)` with radius `1` each (center distance
exactly `r1 + r2`), `Circle::intersect` returns `None` — the strict
comparison `distance < r1 + r2` excludes exact tangency, contradicting the
claim and the repo's own `intersect_disk_tangent` test, which expects a
degenerate two-vertex polygon at `(1,0)` with zero sagittas. -/
theorem tangent_disks_intersect_none :
    Circle.intersect ⟨⟨0, 0⟩, 1⟩ ⟨⟨2, 0⟩, 1⟩ = none := by
  have h4 : Real.sqrt (((2 : ℝ) - 0) ^ 2 + ((0 : ℝ) - 0) ^ 2) = 2 := by
    rw [show ((2 : ℝ) - 0) ^ 2 + ((0 : ℝ) - 0) ^ 2 = 2 ^ 2 by norm_num]
    exact Real.sqrt_sq (by norm_num)
  simp only [Circle.intersect, Vec2.length, Vec2.sub_x, Vec2.sub_y, Vec2.mk_x, Vec2.mk_y]
  rw [h4]
  norm_num

/-- C9 (amended): for every `R ≥ EPS`, the disk segment with chord endpoints
`(R,0)`, `(-R,0)` and sagitta `R` is an exact half-disk: the derived
subtending radius is `R`, the half-angle cosine is `0`, the exact branch is
taken, and the area is `π·R²/2`. (The original claim's "every R > 0" fails
below `EPS`, see the counterexample.) -/
theorem disk_segment_half_disk_area (R : ℝ) (hR : EPS ≤ R) :
    (DiskSegment.moment ⟨⟨(⟨R, 0⟩, ⟨-R, 0⟩), R⟩⟩).area = Real.pi * R ^ 2 / 2 := by
  have hR0 : 0 < R := lt_of_lt_of_le EPS_pos hR
  have hRne : R ≠ 0 := ne_of_gt hR0
  have habs : |R| = R := abs_of_pos hR0
  have hlen2 : (Vec2.mk (-R) 0 - Vec2.mk R 0).length = 2 * R := by
    simp only [Vec2.length, Vec2.sub_x, Vec2.sub_y, Vec2.mk_x, Vec2.mk_y]
    rw [show (-R - R) ^ 2 + ((0:ℝ) - 0) ^ 2 = (2*R)^2 by ring]
    exact Real.sqrt_sq (by linarith)
  simp only [DiskSegment.moment, habs, hlen2]
  rw [show (0.5:ℝ) * (2 * R) = R by ring]
  rw [show (R ^ 2 + R ^ 2) / (2 * R) = R by field_simp; ring]
  rw [div_self hRne]
  norm_num
  rw [if_neg (not_lt.mpr hR)]
  rw [if_pos (by norm_num [APPROX_CIRCLE]; linarith : APPROX_CIRCLE * R < R)]
  norm_num
  ring

/-- Witness for C9 at `R = 1`. -/
theorem disk_segment_half_disk_area_witness :
    EPS ≤ (1 : ℝ) ∧
      (DiskSegment.moment ⟨⟨(⟨1, 0⟩, ⟨-1, 0⟩), 1⟩⟩).area = Real.pi * 1 ^ 2 / 2 :=
  ⟨EPS_le_one, disk_segment_half_disk_area 1 EPS_le_one⟩

/-- C9 counterexample: `R = 5·10⁻⁹` is positive but below `EPS`, so the
degenerate branch of `DiskSegment::moment` returns area `0`, not `π·R²/2` —
refuting the claim's "for every R > 0". -/
theorem disk_segment_half_disk_area_cex :
    (0 : ℝ) < 1 / 200000000 ∧
      (DiskSegment.moment
          ⟨⟨(⟨1 / 200000000, 0⟩, ⟨-(1 / 200000000), 0⟩), 1 / 200000000⟩⟩).area ≠
        Real.pi * (1 / 200000000) ^ 2 / 2 := by
  refine ⟨by norm_num, ?_⟩
  have hz : (DiskSegment.moment
      ⟨⟨(⟨1 / 200000000, 0⟩, ⟨-(1 / 200000000), 0⟩), 1 / 200000000⟩⟩).area = 0 := by
    simp only [DiskSegment.moment]
    rw [if_pos (by rw [abs_of_pos (by norm_num)]; norm_num [EPS])]
  rw [hz]
  exact ne_of_lt (by positivity)

theorem HalfPlane.contains_eval (hp : HalfPlane) (p : Vec2) :
    hp.contains p = decide (0 ≤ hp.distance p) := by
  by_cases h : 0 ≤ hp.distance p
  · simp [HalfPlane.contains, HalfPlane.winding_number_2, if_pos h, h]
  · simp [HalfPlane.contains, HalfPlane.winding_number_2, if_neg h, h]

/-- C6 (code evaluated at the failing input): clipping the square
`[(0,0),(2,0),(2,2),(0,2)]` against `HalfPlane::from_normal((1,0),(1,0))`
keeps the `x ≥ 1` side and yields `[(1,0),(2,0),(2,2),(1,2)]`, not the
claimed `[(0,0),(1,0),(1,2),(0,2)]` — because `plane.rs` counts positive
distance as inside, the kept side is opposite to the claim (and to the
repo's own `intersect_plane` tests, which assert the claimed result). -/
theorem clip_square_against_plane_actual :
    Polygon.intersectPlane [⟨0, 0⟩, ⟨2, 0⟩, ⟨2, 2⟩, ⟨0, 2⟩]
        (HalfPlane.from_normal ⟨1, 0⟩ ⟨1, 0⟩) =
      some [⟨1, 0⟩, ⟨2, 0⟩, ⟨2, 2⟩, ⟨1, 2⟩] ∧
      ([⟨1, 0⟩, ⟨2, 0⟩, ⟨2, 2⟩, ⟨1, 2⟩] : List Vec2) ≠
        [⟨0, 0⟩, ⟨1, 0⟩, ⟨1, 2⟩, ⟨0, 2⟩] := by
  refine ⟨?_, by simp [Vec2.mk.injEq]⟩
  have hf : ∀ u v : ℝ, u < 1 →
      (HalfPlane.from_normal ⟨1, 0⟩ ⟨1, 0⟩).contains ⟨u, v⟩ = false := by
    intro u v hu
    rw [HalfPlane.contains_eval]
    simp only [HalfPlane.from_normal, HalfPlane.distance, Vec2.dot, Vec2.mk_x, Vec2.mk_y,
      decide_eq_false_iff_not, not_le]
    nlinarith
  have ht : ∀ u v : ℝ, 1 ≤ u →
      (HalfPlane.from_normal ⟨1, 0⟩ ⟨1, 0⟩).contains ⟨u, v⟩ = true := by
    intro u v hu
    rw [HalfPlane.contains_eval]
    simp only [HalfPlane.from_normal, HalfPlane.distance, Vec2.dot, Vec2.mk_x, Vec2.mk_y,
      decide_eq_true_eq]
    nlinarith
  have h1 := hf 0 0 (by norm_num)
  have h2 := ht 2 0 (by norm_num)
  have h3 := ht 2 2 (by norm_num)
  have h4 := hf 0 2 (by norm_num)
  have hi1 : (HalfPlane.from_normal ⟨1, 0⟩ ⟨1, 0⟩).edge.intersectSegment
      ⟨⟨0, 0⟩, ⟨2, 0⟩⟩ = some ⟨1, 0⟩ := by
    norm_num [Line.intersectSegment, LineSegment.intersectLine, HalfPlane.edge,
      HalfPlane.boundary_point, HalfPlane.from_normal, Vec2.perp_dot, Vec2.dot,
      Vec2.lerp, Vec2.abs_max, Vec2.length_squared, EPS, Vec2.ext_iff]
  have hi2 : (HalfPlane.from_normal ⟨1, 0⟩ ⟨1, 0⟩).edge.intersectSegment
      ⟨⟨2, 2⟩, ⟨0, 2⟩⟩ = some ⟨1, 2⟩ := by
    norm_num [Line.intersectSegment, LineSegment.intersectLine, HalfPlane.edge,
      HalfPlane.boundary_point, HalfPlane.from_normal, Vec2.perp_dot, Vec2.dot,
      Vec2.lerp, Vec2.abs_max, Vec2.length_squared, EPS, Vec2.ext_iff]
  have hL : ([⟨0, 0⟩, ⟨2, 0⟩, ⟨2, 2⟩, ⟨0, 2⟩] : List Vec2).getLast? = some ⟨0, 2⟩ := rfl
  simp only [Polygon.intersectPlane, hL]
  have hz : (((⟨0, 2⟩ : Vec2) :: [⟨0, 0⟩, ⟨2, 0⟩, ⟨2, 2⟩, ⟨0, 2⟩]).zip
      [(⟨0, 0⟩ : Vec2), ⟨2, 0⟩, ⟨2, 2⟩, ⟨0, 2⟩]) =
      [((⟨0, 2⟩ : Vec2), (⟨0, 0⟩ : Vec2)), (⟨0, 0⟩, ⟨2, 0⟩), (⟨2, 0⟩, ⟨2, 2⟩),
        (⟨2, 2⟩, ⟨0, 2⟩)] := rfl
  rw [hz]
  simp only [List.flatMap_cons, List.flatMap_nil, clipStep, h1, h2, h3, h4, hi1, hi2,
    Option.getD_some, List.append_nil, List.cons_append, List.nil_append, List.isEmpty]
  norm_num

/-- C8 counterexample: clipping the triangle `[(1,1),(0,0),(0,2)]` (one vertex
exactly on the boundary) against the half-plane with normal `(1,0)` and
offset `1` returns `Some([(1,1),(1,1),(1,1)])`: consecutive vertices at
distance `0 < EPS` remain — no deduplication is performed, refuting the
claim. -/
theorem clip_plane_duplicates_cex :
    Polygon.intersectPlane [⟨1, 1⟩, ⟨0, 0⟩, ⟨0, 2⟩] ⟨⟨1, 0⟩, 1⟩ =
        some [⟨1, 1⟩, ⟨1, 1⟩, ⟨1, 1⟩] ∧
      ((⟨1, 1⟩ : Vec2) - ⟨1, 1⟩).abs_max < EPS := by
  refine ⟨?_, by norm_num [Vec2.abs_max, EPS]⟩
  have hcT : (⟨⟨1, 0⟩, 1⟩ : HalfPlane).contains ⟨1, 1⟩ = true := by
    rw [HalfPlane.contains_eval]
    simp only [HalfPlane.distance, Vec2.dot, Vec2.mk_x, Vec2.mk_y, decide_eq_true_eq]
    norm_num
  have hcF1 : (⟨⟨1, 0⟩, 1⟩ : HalfPlane).contains ⟨0, 0⟩ = false := by
    rw [HalfPlane.contains_eval]
    simp only [HalfPlane.distance, Vec2.dot, Vec2.mk_x, Vec2.mk_y,
      decide_eq_false_iff_not, not_le]
    norm_num
  have hcF2 : (⟨⟨1, 0⟩, 1⟩ : HalfPlane).contains ⟨0, 2⟩ = false := by
    rw [HalfPlane.contains_eval]
    simp only [HalfPlane.distance, Vec2.dot, Vec2.mk_x, Vec2.mk_y,
      decide_eq_false_iff_not, not_le]
    norm_num
  have hi1 : (⟨⟨1, 0⟩, 1⟩ : HalfPlane).edge.intersectSegment
      ⟨⟨0, 2⟩, ⟨1, 1⟩⟩ = some ⟨1, 1⟩ := by
    norm_num [Line.intersectSegment, LineSegment.intersectLine, HalfPlane.edge,
      HalfPlane.boundary_point, Vec2.perp_dot, Vec2.dot, Vec2.lerp, Vec2.abs_max,
      Vec2.length_squared, EPS, Vec2.ext_iff]
  have hi2 : (⟨⟨1, 0⟩, 1⟩ : HalfPlane).edge.intersectSegment
      ⟨⟨1, 1⟩, ⟨0, 0⟩⟩ = some ⟨1, 1⟩ := by
    norm_num [Line.intersectSegment, LineSegment.intersectLine, HalfPlane.edge,
      HalfPlane.boundary_point, Vec2.perp_dot, Vec2.dot, Vec2.lerp, Vec2.abs_max,
      Vec2.length_squared, EPS, Vec2.ext_iff]
  have hL : ([⟨1, 1⟩, ⟨0, 0⟩, ⟨0, 2⟩] : List Vec2).getLast? = some ⟨0, 2⟩ := rfl
  simp only [Polygon.intersectPlane, hL]
  have hz : (((⟨0, 2⟩ : Vec2) :: [⟨1, 1⟩, ⟨0, 0⟩, ⟨0, 2⟩]).zip
      [(⟨1, 1⟩ : Vec2), ⟨0, 0⟩, ⟨0, 2⟩]) =
      [((⟨0, 2⟩ : Vec2), (⟨1, 1⟩ : Vec2)), (⟨1, 1⟩, ⟨0, 0⟩), (⟨0, 0⟩, ⟨0, 2⟩)] := rfl
  rw [hz]
  simp only [List.flatMap_cons, List.flatMap_nil, clipStep, hcT, hcF1, hcF2, hi1, hi2,
    Option.getD_some, List.append_nil, List.cons_append, List.nil_append, List.isEmpty]
  norm_num

open Classical in
/-- C8 (amended): the half-plane clipping of `polygon/line.rs` performs no
deduplication: it returns `None` exactly when the Sutherland-Hodgman walk
emits no vertices (in particular for the empty polygon), and otherwise
returns the raw walk output verbatim, in which cyclically consecutive
vertices closer than `EPS` can remain. -/
theorem clip_plane_no_dedup (vs : List Vec2) (plane : HalfPlane) :
    Polygon.intersectPlane vs plane =
      if clipWalk vs plane = [] then none else some (clipWalk vs plane) := by
  unfold Polygon.intersectPlane clipWalk
  cases h : vs.getLast? with
  | none => simp
  | some lastV =>
    by_cases he : ((lastV :: vs).zip vs).flatMap (fun e => clipStep plane e.1 e.2) = []
    · simp [he]
    · simp [he]

/-- C5: the two disks of radius 2 centered at `(0,0)` and `(3,0)` intersect
in the 2-vertex arc lens given by the radical-line formula: chord midpoint
x-coordinate `3/2`, vertices `(3/2, ∓√(4 - (3/2)²))`, and both sagittas
`2 - 3/2 = 1/2`, which is positive. -/
theorem lens_disks_radius_two :
    Circle.intersect ⟨⟨0, 0⟩, 2⟩ ⟨⟨3, 0⟩, 2⟩ =
        some (Sum.inl
          [⟨⟨3 / 2, -Real.sqrt (4 - (3 / 2) ^ 2)⟩, 1 / 2⟩,
           ⟨⟨3 / 2, Real.sqrt (4 - (3 / 2) ^ 2)⟩, 1 / 2⟩]) ∧
      (0 : ℝ) < 1 / 2 := by
  refine ⟨?_, by norm_num⟩
  have hlen : Real.sqrt (((3 : ℝ) - 0) ^ 2 + ((0 : ℝ) - 0) ^ 2) = 3 := by
    rw [show ((3 : ℝ) - 0) ^ 2 + ((0 : ℝ) - 0) ^ 2 = 3 ^ 2 by norm_num]
    exact Real.sqrt_sq (by norm_num)
  simp only [Circle.intersect, Vec2.length, Vec2.sub_x, Vec2.sub_y, Vec2.mk_x, Vec2.mk_y]
  rw [hlen]
  rw [if_pos (by norm_num : (3 : ℝ) < 2 + 2)]
  rw [if_pos (by norm_num : |(2 : ℝ) - 2| < 3)]
  simp only [Vec2.perp_x, Vec2.perp_y, Vec2.div_x, Vec2.div_y, Vec2.add_x, Vec2.add_y,
    Vec2.sub_x, Vec2.sub_y, Vec2.smul_left_x, Vec2.smul_left_y, Vec2.smul_right_x,
    Vec2.smul_right_y, Vec2.mk_x, Vec2.mk_y, Option.some.injEq, Sum.inl.injEq,
    List.cons.injEq, ArcVertex.mk.injEq, Vec2.mk.injEq, and_true, List.cons.injEq]
  norm_num
  constructor
  · rw [Vec2.ext_iff]
    constructor <;> simp
  · rw [Vec2.ext_iff]
    constructor <;> simp

theorem sqrt_thirtysix : Real.sqrt (36 : ℝ) = 6 :=
  sqrt_eq_of_sq 36 6 (by norm_num) (by norm_num)

theorem c3_contains_corner (u v : ℝ) (h : 1 < u ^ 2 + v ^ 2) :
    Disk.contains ⟨⟨0, 0⟩, 1⟩ ⟨u, v⟩ = false := by
  simp only [Disk.contains, Circle.contains, Circle.winding_number_2, Vec2.length_squared,
    Vec2.sub_x, Vec2.sub_y, Vec2.mk_x, Vec2.mk_y]
  rw [if_neg (by nlinarith)]
  rfl

theorem c3_line1 : Circle.intersectLine ⟨⟨0, 0⟩, 1⟩ ⟨⟨-3, -3⟩, ⟨3, -3⟩⟩ = none := by
  norm_num [Circle.intersectLine, HalfPlane.from_edge, HalfPlane.from_normal,
    HalfPlane.distance, Circle.intersectHalfPlane, Vec2.normalize, Vec2.length,
    Vec2.dot, Vec2.perp, sqrt_thirtysix, EPS]

theorem c3_line2 : Circle.intersectLine ⟨⟨0, 0⟩, 1⟩ ⟨⟨3, -3⟩, ⟨3, 3⟩⟩ = none := by
  norm_num [Circle.intersectLine, HalfPlane.from_edge, HalfPlane.from_normal,
    HalfPlane.distance, Circle.intersectHalfPlane, Vec2.normalize, Vec2.length,
    Vec2.dot, Vec2.perp, sqrt_thirtysix, EPS]

theorem c3_line3 : Circle.intersectLine ⟨⟨0, 0⟩, 1⟩ ⟨⟨3, 3⟩, ⟨-3, 3⟩⟩ = none := by
  norm_num [Circle.intersectLine, HalfPlane.from_edge, HalfPlane.from_normal,
    HalfPlane.distance, Circle.intersectHalfPlane, Vec2.normalize, Vec2.length,
    Vec2.dot, Vec2.perp, sqrt_thirtysix, EPS]

theorem c3_line4 : Circle.intersectLine ⟨⟨0, 0⟩, 1⟩ ⟨⟨-3, 3⟩, ⟨-3, -3⟩⟩ = none := by
  norm_num [Circle.intersectLine, HalfPlane.from_edge, HalfPlane.from_normal,
    HalfPlane.distance, Circle.intersectHalfPlane, Vec2.normalize, Vec2.length,
    Vec2.dot, Vec2.perp, sqrt_thirtysix, EPS]

/-- C3 (code evaluated at the failing input): the square
`[(-3,-3),(3,-3),(3,3),(-3,3)]` strictly contains the unit disk at the
origin (its winding number at the disk center is positive) while none of its
vertices is inside the disk and none of its edges meets the disk boundary;
yet `Polygon::intersect_to(Disk)` returns `None` — the `polygon/circle.rs`
walk has no polygon-contains-disk branch, so the claimed whole-disk
2-vertex `ArcPolygon` is never produced. -/
theorem polygon_containing_disk_clip_none :
    Polygon.contains [⟨-3, -3⟩, ⟨3, -3⟩, ⟨3, 3⟩, ⟨-3, 3⟩] ⟨0, 0⟩ = true ∧
      Disk.contains ⟨⟨0, 0⟩, 1⟩ ⟨-3, -3⟩ = false ∧
      Disk.contains ⟨⟨0, 0⟩, 1⟩ ⟨3, -3⟩ = false ∧
      Disk.contains ⟨⟨0, 0⟩, 1⟩ ⟨3, 3⟩ = false ∧
      Disk.contains ⟨⟨0, 0⟩, 1⟩ ⟨-3, 3⟩ = false ∧
      Polygon.intersectDisk [⟨-3, -3⟩, ⟨3, -3⟩, ⟨3, 3⟩, ⟨-3, 3⟩] ⟨⟨0, 0⟩, 1⟩ = none := by
  have hc1 : Disk.contains ⟨⟨0, 0⟩, 1⟩ ⟨-3, -3⟩ = false := c3_contains_corner _ _ (by norm_num)
  have hc2 : Disk.contains ⟨⟨0, 0⟩, 1⟩ ⟨3, -3⟩ = false := c3_contains_corner _ _ (by norm_num)
  have hc3 : Disk.contains ⟨⟨0, 0⟩, 1⟩ ⟨3, 3⟩ = false := c3_contains_corner _ _ (by norm_num)
  have hc4 : Disk.contains ⟨⟨0, 0⟩, 1⟩ ⟨-3, 3⟩ = false := c3_contains_corner _ _ (by norm_num)
  have hs1 : Circle.intersectSegment ⟨⟨0, 0⟩, 1⟩ ⟨⟨-3, -3⟩, ⟨3, -3⟩⟩ = none := by
    simp [Circle.intersectSegment, c3_line1]
  have hs2 : Circle.intersectSegment ⟨⟨0, 0⟩, 1⟩ ⟨⟨3, -3⟩, ⟨3, 3⟩⟩ = none := by
    simp [Circle.intersectSegment, c3_line2]
  have hs3 : Circle.intersectSegment ⟨⟨0, 0⟩, 1⟩ ⟨⟨3, 3⟩, ⟨-3, 3⟩⟩ = none := by
    simp [Circle.intersectSegment, c3_line3]
  have hs4 : Circle.intersectSegment ⟨⟨0, 0⟩, 1⟩ ⟨⟨-3, 3⟩, ⟨-3, -3⟩⟩ = none := by
    simp [Circle.intersectSegment, c3_line4]
  have hw : Polygon.winding_number_2 [⟨-3, -3⟩, ⟨3, -3⟩, ⟨3, 3⟩, ⟨-3, 3⟩] ⟨0, 0⟩ = 1 := by
    have hcp : cyclicPairs [(⟨-3, -3⟩ : Vec2), ⟨3, -3⟩, ⟨3, 3⟩, ⟨-3, 3⟩] =
        [((⟨-3, -3⟩ : Vec2), (⟨3, -3⟩ : Vec2)), (⟨3, -3⟩, ⟨3, 3⟩), (⟨3, 3⟩, ⟨-3, 3⟩),
          (⟨-3, 3⟩, ⟨-3, -3⟩)] := rfl
    norm_num [Polygon.winding_number_2, hcp, windingTerm, Vec2.perp_dot]
  refine ⟨by simp [Polygon.contains, hw], hc1, hc2, hc3, hc4, ?_⟩
  simp only [Polygon.intersectDisk, List.cons_append, List.nil_append, List.foldl_cons,
    List.foldl_nil, diskClipStep, Disk.edge, hc1, hc2, hc3, hc4, hs1, hs2, hs3, hs4]

theorem Vec2.perp_dot_anticomm (a b : Vec2) : a.perp_dot b = -(b.perp_dot a) := by
  simp only [Vec2.perp_dot]
  ring

theorem c7_lineline (A B : Line)
    (h : EPS < |(A.p1 - A.p0).perp_dot (B.p1 - B.p0)|) :
    A.intersectLine B = B.intersectLine A := by
  have hden0 : (A.p1 - A.p0).perp_dot (B.p1 - B.p0) ≠ 0 :=
    abs_pos.mp (lt_trans EPS_pos h)
  have eq1 : (B.p1 - B.p0).perp_dot (A.p1 - A.p0) =
      -((A.p1 - A.p0).perp_dot (B.p1 - B.p0)) := Vec2.perp_dot_anticomm _ _
  have eq2 : (A.p0 - B.p0).perp_dot (A.p1 - A.p0) =
      -((B.p0 - A.p0).perp_dot (A.p1 - A.p0)) := by
    simp only [Vec2.perp_dot, Vec2.sub_x, Vec2.sub_y]
    ring
  have eq3 : (A.p0 - B.p0).perp_dot (B.p1 - B.p0) =
      -((B.p0 - A.p0).perp_dot (B.p1 - B.p0)) := by
    simp only [Vec2.perp_dot, Vec2.sub_x, Vec2.sub_y]
    ring
  have key : ∀ px qx rx sx pqs pqr den : ℝ, den ≠ 0 →
      rx * pqs - sx * pqr = den * (qx - px) →
      px + pqs / den * rx = qx + pqr / den * sx := by
    intro px qx rx sx pqs pqr den hden hid
    field_simp
    linear_combination hid
  simp only [Line.intersectLine, eq1, eq2, eq3, abs_neg, neg_div_neg_eq]
  rw [if_pos h, if_pos h]
  simp only [Option.some.injEq]
  rw [Vec2.ext_iff]
  constructor
  · simp only [Vec2.lerp, Vec2.add_x, Vec2.sub_x, Vec2.smul_right_x]
    exact key _ _ _ _ _ _ _ hden0
      (by simp only [Vec2.perp_dot, Vec2.sub_x, Vec2.sub_y]; ring)
  · simp only [Vec2.lerp, Vec2.add_y, Vec2.sub_y, Vec2.smul_right_y]
    exact key _ _ _ _ _ _ _ hden0
      (by simp only [Vec2.perp_dot, Vec2.sub_x, Vec2.sub_y]; ring)

theorem c7_segseg (A B : LineSegment)
    (h : EPS < |(A.p1 - A.p0).perp_dot (B.p1 - B.p0)|) :
    A.intersectSegment B = B.intersectSegment A := by
  have hden0 : (A.p1 - A.p0).perp_dot (B.p1 - B.p0) ≠ 0 :=
    abs_pos.mp (lt_trans EPS_pos h)
  have eq1 : (B.p1 - B.p0).perp_dot (A.p1 - A.p0) =
      -((A.p1 - A.p0).perp_dot (B.p1 - B.p0)) := Vec2.perp_dot_anticomm _ _
  have eq2 : (A.p0 - B.p0).perp_dot (A.p1 - A.p0) =
      -((B.p0 - A.p0).perp_dot (A.p1 - A.p0)) := by
    simp only [Vec2.perp_dot, Vec2.sub_x, Vec2.sub_y]
    ring
  have eq3 : (A.p0 - B.p0).perp_dot (B.p1 - B.p0) =
      -((B.p0 - A.p0).perp_dot (B.p1 - B.p0)) := by
    simp only [Vec2.perp_dot, Vec2.sub_x, Vec2.sub_y]
    ring
  have key : ∀ px qx rx sx pqs pqr den : ℝ, den ≠ 0 →
      rx * pqs - sx * pqr = den * (qx - px) →
      px + pqs / den * rx = qx + pqr / den * sx := by
    intro px qx rx sx pqs pqr den hden hid
    field_simp
    linear_combination hid
  simp only [LineSegment.intersectSegment, eq1, eq2, eq3, abs_neg, neg_div_neg_eq]
  rw [if_pos h, if_pos h]
  split_ifs with h1 h2 h3
  · simp only [Option.some.injEq]
    rw [Vec2.ext_iff]
    constructor
    · simp only [Vec2.lerp, Vec2.add_x, Vec2.sub_x, Vec2.smul_right_x]
      exact key _ _ _ _ _ _ _ hden0
        (by simp only [Vec2.perp_dot, Vec2.sub_x, Vec2.sub_y]; ring)
    · simp only [Vec2.lerp, Vec2.add_y, Vec2.sub_y, Vec2.smul_right_y]
      exact key _ _ _ _ _ _ _ hden0
        (by simp only [Vec2.perp_dot, Vec2.sub_x, Vec2.sub_y]; ring)
  · exact absurd ⟨h1.2, h1.1⟩ h2
  · exact absurd ⟨h3.2, h3.1⟩ h1
  · rfl

/-- C7 (amended): intersection symmetry holds for the mixed pairs always
(`Line ∩ LineSegment` delegates to `LineSegment ∩ Line`, so both directions
are literally the same computation), and for `Line/Line` and
`LineSegment/LineSegment` pairs whenever the two direction vectors are not
parallel within tolerance (`EPS < |r × s|`), where both directions return
the same point exactly. (For parallel same-type pairs the tolerance tests
are asymmetric and symmetry can fail, see the counterexample.) -/
theorem intersect_symmetry_amended :
    (∀ (l : Line) (s : LineSegment), l.intersectSegment s = s.intersectLine l) ∧
      (∀ A B : Line, EPS < |(A.p1 - A.p0).perp_dot (B.p1 - B.p0)| →
        A.intersectLine B = B.intersectLine A) ∧
      (∀ A B : LineSegment, EPS < |(A.p1 - A.p0).perp_dot (B.p1 - B.p0)| →
        A.intersectSegment B = B.intersectSegment A) :=
  ⟨fun _ _ => rfl, c7_lineline, c7_segseg⟩

/-- Witness for C7 at the lines through `(0,0),(1,0)` and `(0,0),(0,1)`
(cross product `1 > EPS`). -/
theorem intersect_symmetry_amended_witness :
    EPS < |((⟨⟨0, 0⟩, ⟨1, 0⟩⟩ : Line).p1 - (⟨⟨0, 0⟩, ⟨1, 0⟩⟩ : Line).p0).perp_dot
        ((⟨⟨0, 0⟩, ⟨0, 1⟩⟩ : Line).p1 - (⟨⟨0, 0⟩, ⟨0, 1⟩⟩ : Line).p0)| ∧
      Line.intersectLine ⟨⟨0, 0⟩, ⟨1, 0⟩⟩ ⟨⟨0, 0⟩, ⟨0, 1⟩⟩ =
        Line.intersectLine ⟨⟨0, 0⟩, ⟨0, 1⟩⟩ ⟨⟨0, 0⟩, ⟨1, 0⟩⟩ :=
  ⟨by norm_num [Vec2.perp_dot, EPS],
   intersect_symmetry_amended.2.1 ⟨⟨0, 0⟩, ⟨1, 0⟩⟩ ⟨⟨0, 0⟩, ⟨0, 1⟩⟩
     (by norm_num [Vec2.perp_dot, EPS])⟩

/-- C7 counterexample: the parallel tolerance tests are asymmetric. For the
short horizontal line `A` through `(0,0)` and `(2⁻²⁰, 0)` and the long
horizontal line `B` through `(0, 2⁻³⁰)` and `(128, 2⁻³⁰)`,
`A.intersect(B)` is `None` (offset times the long direction, `2⁻²³`, exceeds
`EPS`) while `B.intersect(A)` is `Some((0, 2⁻³⁰))` (offset times the short
direction, `2⁻⁵⁰`, is below `EPS`, so the lines count as coincident) — the
two directions do not agree. -/
theorem intersect_symmetry_cex :
    Line.intersectLine ⟨⟨0, 0⟩, ⟨1 / 1048576, 0⟩⟩
        ⟨⟨0, 1 / 1073741824⟩, ⟨128, 1 / 1073741824⟩⟩ = none ∧
      Line.intersectLine ⟨⟨0, 1 / 1073741824⟩, ⟨128, 1 / 1073741824⟩⟩
          ⟨⟨0, 0⟩, ⟨1 / 1048576, 0⟩⟩ =
        some ⟨0, 1 / 1073741824⟩ := by
  constructor
  · norm_num [Line.intersectLine, Vec2.perp_dot, Vec2.abs_max, EPS]
    intro hc
    rw [abs_of_pos (by norm_num : (0 : ℝ) < 1 / 8388608)] at hc
    norm_num at hc
  · norm_num [Line.intersectLine, Vec2.perp_dot, Vec2.abs_max, EPS]
    rw [if_pos (by rw [abs_of_pos (by norm_num : (0 : ℝ) < 1 / 1048576)]; norm_num),
      if_pos (by rw [abs_of_pos (by norm_num : (0 : ℝ) < 1 / 1125899906842624)]; norm_num)]

@[simp] theorem Moment.area_mk (x : ℝ) (c : Vec2) : (Moment.mk x c).area = x := rfl

@[simp] theorem Circle.center_mk (c : Vec2) (r : ℝ) : (Circle.mk c r).center = c := rfl

@[simp] theorem Circle.radius_mk (c : Vec2) (r : ℝ) : (Circle.mk c r).radius = r := rfl

@[simp] theorem ArcVertex.point_mk (p : Vec2) (s : ℝ) : (ArcVertex.mk p s).point = p := rfl

@[simp] theorem ArcVertex.sagitta_mk (p : Vec2) (s : ℝ) :
    (ArcVertex.mk p s).sagitta = s := rfl

theorem Moment.merge_eval (m o : Moment) :
    m.merge o = if |m.area + o.area| < EPS then Moment.zero
      else ⟨m.area + o.area,
        (m.centroid * m.area + o.centroid * o.area) / (m.area + o.area)⟩ := rfl

@[simp] theorem Moment.centroid_mk (x : ℝ) (c : Vec2) : (Moment.mk x c).centroid = c := rfl

theorem Vec2.length_sub_comm (a b : Vec2) : (a - b).length = (b - a).length := by
  simp only [Vec2.length, Vec2.sub_x, Vec2.sub_y]
  rw [show (a.x - b.x) ^ 2 = (b.x - a.x) ^ 2 by ring,
    show (a.y - b.y) ^ 2 = (b.y - a.y) ^ 2 by ring]

theorem Vec2.length_nonneg (a : Vec2) : 0 ≤ a.length := Real.sqrt_nonneg _

theorem cyclicPairs_pair {α : Type} (x y : α) : cyclicPairs [x, y] = [(x, y), (y, x)] := rfl

theorem Polygon.pair_moment_zero (p q : Vec2) : Polygon.moment [p, q] = ⟨0, ⟨0, 0⟩⟩ := by
  simp only [Polygon.moment, cyclicPairs_pair, List.foldl_cons, List.foldl_nil]
  rw [show (0 : ℝ) + p.perp_dot q + q.perp_dot p = 0 by
    simp only [Vec2.perp_dot]; ring]
  rw [if_pos (by simpa using EPS_pos)]
  norm_num

theorem ArcPolygon.winding_pair_swap (a b : ArcVertex) (p : Vec2) :
    ArcPolygon.winding_number_2 [a, b] p = ArcPolygon.winding_number_2 [b, a] p := by
  simp only [ArcPolygon.winding_number_2, Polygon.winding_number_2, ArcPolygon.edges,
    List.map_cons, List.map_nil, cyclicPairs_pair, List.sum_cons, List.sum_nil]
  ring

theorem ArcPolygon.moment_pair (a b : ArcVertex) :
    ArcPolygon.moment [a, b] =
      ((Moment.mk 0 ⟨0, 0⟩).merge
          (DiskSegment.moment ⟨⟨(a.point, b.point), a.sagitta⟩⟩)).merge
        (DiskSegment.moment ⟨⟨(b.point, a.point), b.sagitta⟩⟩) := by
  simp only [ArcPolygon.moment, ArcPolygon.edges, List.map_cons, List.map_nil,
    cyclicPairs_pair, List.foldl_cons, List.foldl_nil, Polygon.pair_moment_zero]

theorem arccos_sub_mul_nonneg (c t : ℝ) (ht0 : 0 ≤ t) (ht : t ^ 2 = 1 - c ^ 2) :
    0 ≤ Real.arccos c - c * t := by
  rcases le_or_lt c 0 with hc | hc
  · nlinarith [Real.arccos_nonneg c, mul_nonneg (neg_nonneg.mpr hc) ht0]
  · have hc1 : c ≤ 1 := by nlinarith [sq_nonneg t]
    have hcm : (-1 : ℝ) ≤ c := by linarith
    have hteq : t = Real.sqrt (1 - c ^ 2) := by
      rw [← ht]
      exact (Real.sqrt_sq ht0).symm
    have hsin : Real.sin (Real.arccos c) = t := by rw [Real.sin_arccos, hteq]
    have hcosv : Real.cos (Real.arccos c) = c := Real.cos_arccos hcm hc1
    have hth0 : 0 ≤ Real.arccos c := Real.arccos_nonneg c
    have h2 : Real.sin (2 * Real.arccos c) ≤ 2 * Real.arccos c :=
      Real.sin_le (by linarith)
    rw [Real.sin_two_mul, hsin, hcosv] at h2
    linarith

theorem sqrt_two_le_threehalf : Real.sqrt 2 ≤ 3 / 2 := by
  rw [show (3 / 2 : ℝ) = Real.sqrt ((3 / 2) ^ 2) from (Real.sqrt_sq (by norm_num)).symm]
  exact Real.sqrt_le_sqrt (by norm_num)

theorem DiskSegment.moment_area_nonneg (seg : DiskSegment) : 0 ≤ seg.moment.area := by
  obtain ⟨⟨⟨a, b⟩, sg⟩⟩ := seg
  simp only [DiskSegment.moment]
  set s := |sg| with hs_def
  set h := (0.5 : ℝ) * (b - a).length with hh_def
  set R := (h ^ 2 + s ^ 2) / (2 * s) with hR_def
  rw [apply_ite Moment.area]
  simp only [Moment.area_mk]
  rw [apply_ite Prod.fst, apply_ite Prod.fst]
  have hh0 : 0 ≤ h := by
    rw [hh_def]
    simp only [Vec2.length]
    positivity
  split_ifs with h1 h2 h3
  · norm_num
  all_goals
    have hsE : EPS ≤ s := not_lt.mp h1
    have hs0 : 0 < s := lt_of_lt_of_le EPS_pos hsE
    have hR0 : 0 < R := by
      rw [hR_def]
      apply div_pos (by nlinarith) (by linarith)
    have hhs : h ^ 2 + s ^ 2 ≠ 0 := by nlinarith
  · -- exact trigonometric branch
    simp only [Prod.fst]
    apply mul_nonneg _ (sq_nonneg R)
    apply arccos_sub_mul_nonneg _ _ (div_nonneg hh0 hR0.le)
    rw [hR_def]
    field_simp
    ring
  · -- parabola branch, thin sliver
    simp only [Prod.fst]
    have hsR0 : 0 ≤ s / R := div_nonneg hs0.le hR0.le
    have hsR2 : s / R ≤ 2 := by
      rw [div_le_iff₀ hR0, hR_def]
      rw [show 2 * ((h ^ 2 + s ^ 2) / (2 * s)) = (h ^ 2 + s ^ 2) / s by
        field_simp; ring]
      rw [le_div_iff₀ hs0]
      nlinarith [sq_nonneg h]
    have habs : |1 - s / R| ≤ 1 := abs_le.mpr ⟨by linarith, by linarith⟩
    have hy0 : 0 ≤ 1 - |1 - s / R| := by linarith
    apply mul_nonneg _ (sq_nonneg R)
    apply mul_nonneg _ hy0
    positivity
  · -- parabola branch, near-full-circle complement
    simp only [Prod.fst]
    have hsR0 : 0 ≤ s / R := div_nonneg hs0.le hR0.le
    have hsR2 : s / R ≤ 2 := by
      rw [div_le_iff₀ hR0, hR_def]
      rw [show 2 * ((h ^ 2 + s ^ 2) / (2 * s)) = (h ^ 2 + s ^ 2) / s by
        field_simp; ring]
      rw [le_div_iff₀ hs0]
      nlinarith [sq_nonneg h]
    have habs : |1 - s / R| ≤ 1 := abs_le.mpr ⟨by linarith, by linarith⟩
    have hy0 : 0 ≤ 1 - |1 - s / R| := by linarith
    have hy1 : 1 - |1 - s / R| ≤ 1 := by linarith [abs_nonneg (1 - s / R)]
    have hsq2 : Real.sqrt (2 * (1 - |1 - s / R|)) ≤ Real.sqrt 2 :=
      Real.sqrt_le_sqrt (by linarith)
    apply mul_nonneg _ (sq_nonneg R)
    nlinarith [Real.pi_gt_three, sqrt_two_le_threehalf,
      Real.sqrt_nonneg (2 * (1 - |1 - s / R|))]

theorem merge_chain_area_close (m1 m2 : Moment) (h1 : 0 ≤ m1.area) (h2 : 0 ≤ m2.area) :
    |(((Moment.mk 0 ⟨0, 0⟩).merge m1).merge m2).area -
        (((Moment.mk 0 ⟨0, 0⟩).merge m2).merge m1).area| < EPS := by
  have key : ∀ x y : Moment, 0 ≤ x.area → 0 ≤ y.area →
      (((Moment.mk 0 ⟨0, 0⟩).merge x).merge y).area =
        if x.area < EPS then (if y.area < EPS then 0 else y.area)
        else x.area + y.area := by
    intro x y hx hy
    unfold Moment.merge
    simp only [apply_ite Moment.area, Moment.area_mk, Moment.zero, zero_add]
    rw [abs_of_nonneg hx]
    by_cases ex : x.area < EPS
    · rw [if_pos ex, zero_add, abs_of_nonneg hy, if_pos ex]
    · rw [if_neg ex, abs_of_nonneg (add_nonneg hx hy)]
      rw [if_neg (by push_neg at ex ⊢; linarith), if_neg ex]
  rw [key m1 m2 h1 h2, key m2 m1 h2 h1]
  by_cases e1 : m1.area < EPS <;> by_cases e2 : m2.area < EPS
  · rw [if_pos e1, if_pos e2, if_pos e2, if_pos e1]
    simpa using EPS_pos
  · rw [if_pos e1, if_neg e2, if_neg e2]
    rw [show m2.area - (m2.area + m1.area) = -m1.area by ring, abs_neg,
      abs_of_nonneg h1]
    exact e1
  · rw [if_neg e1, if_pos e2, if_neg e1]
    rw [show m1.area + m2.area - m1.area = m2.area by ring, abs_of_nonneg h2]
    exact e2
  · rw [if_neg e1, if_neg e2]
    rw [show m1.area + m2.area - (m2.area + m1.area) = 0 by ring]
    simpa using EPS_pos

theorem Circle.intersect_lens (c1 c2 : Circle)
    (hgt : |c1.radius - c2.radius| < (c2.center - c1.center).length)
    (hlt : (c2.center - c1.center).length < c1.radius + c2.radius) :
    c1.intersect c2 = some (Sum.inl [lensV0 c1 c2, lensV1 c1 c2]) := by
  simp only [Circle.intersect, lensV0, lensV1]
  rw [if_pos hlt, if_pos hgt]

theorem lens_swap (c1 c2 : Circle)
    (hgt : |c1.radius - c2.radius| < (c2.center - c1.center).length) :
    lensV0 c2 c1 = lensV1 c1 c2 ∧ lensV1 c2 c1 = lensV0 c1 c2 := by
  have hd0 : 0 < (c2.center - c1.center).length :=
    lt_of_le_of_lt (abs_nonneg _) hgt
  have hdne : (c2.center - c1.center).length ≠ 0 := ne_of_gt hd0
  have hdcomm : (c1.center - c2.center).length = (c2.center - c1.center).length :=
    Vec2.length_sub_comm _ _
  simp only [lensV0, lensV1, hdcomm]
  set d := (c2.center - c1.center).length with hd_def
  have hsq : c2.radius ^ 2 -
      ((0.5 : ℝ) * (d + (c2.radius ^ 2 - c1.radius ^ 2) / d)) ^ 2 =
      c1.radius ^ 2 -
        ((0.5 : ℝ) * (d + (c1.radius ^ 2 - c2.radius ^ 2) / d)) ^ 2 := by
    field_simp
    ring
  rw [hsq]
  constructor
  · rw [ArcVertex.mk.injEq]
    constructor
    · rw [Vec2.ext_iff]
      constructor
      · simp only [Vec2.add_x, Vec2.sub_x, Vec2.smul_right_x, Vec2.div_x, Vec2.perp_x,
          Vec2.perp_y, Vec2.div_y, Vec2.sub_y]
        field_simp
        ring
      · simp only [Vec2.add_y, Vec2.sub_y, Vec2.smul_right_y, Vec2.div_y, Vec2.perp_x,
          Vec2.perp_y, Vec2.div_x, Vec2.sub_x]
        field_simp
        ring
    · field_simp
      ring
  · rw [ArcVertex.mk.injEq]
    constructor
    · rw [Vec2.ext_iff]
      constructor
      · simp only [Vec2.add_x, Vec2.sub_x, Vec2.smul_right_x, Vec2.div_x, Vec2.perp_x,
          Vec2.perp_y, Vec2.div_y, Vec2.sub_y]
        field_simp
        ring
      · simp only [Vec2.add_y, Vec2.sub_y, Vec2.smul_right_y, Vec2.div_y, Vec2.perp_x,
          Vec2.perp_y, Vec2.div_x, Vec2.sub_x]
        field_simp
        ring
    · field_simp
      ring

theorem Vec2.eq_of_length_sub_eq_zero {a b : Vec2} (h : (b - a).length = 0) : a = b := by
  simp only [Vec2.length, Vec2.sub_x, Vec2.sub_y] at h
  have h2 : (b.x - a.x) ^ 2 + (b.y - a.y) ^ 2 ≤ 0 := Real.sqrt_eq_zero'.mp h
  rw [Vec2.ext_iff]
  constructor <;> nlinarith [sq_nonneg (b.x - a.x), sq_nonneg (b.y - a.y)]

/-- C4 (amended): for every pair of circles whose center distance is below
the sum of the radii (the code's non-empty condition), both intersection
directions return `Some`, the two results denote the same region (their
doubled winding numbers agree at every point), and their areas agree within
`EPS`. (The centroids need not agree within `EPS`, see the counterexample:
when exactly one of the two lens segments has sub-`EPS` area, `Moment::merge`
drops it in one evaluation order but not the other.) -/
theorem disk_intersect_symmetry_amended (c1 c2 : Circle)
    (h : (c2.center - c1.center).length < c1.radius + c2.radius) :
    (c1.intersect c2).isSome = true ∧ (c2.intersect c1).isSome = true ∧
      (∀ p, circleIntersectWinding (c1.intersect c2) p =
        circleIntersectWinding (c2.intersect c1) p) ∧
      |(circleIntersectMoment (c1.intersect c2)).area -
          (circleIntersectMoment (c2.intersect c1)).area| < EPS := by
  have h' : (c1.center - c2.center).length < c2.radius + c1.radius := by
    rw [Vec2.length_sub_comm]
    linarith
  by_cases hgt : |c1.radius - c2.radius| < (c2.center - c1.center).length
  · have hgt' : |c2.radius - c1.radius| < (c1.center - c2.center).length := by
      rw [Vec2.length_sub_comm, abs_sub_comm]
      exact hgt
    have e1 := Circle.intersect_lens c1 c2 hgt h
    have e2 := Circle.intersect_lens c2 c1 hgt' h'
    obtain ⟨w0, w1⟩ := lens_swap c1 c2 hgt
    rw [w0, w1] at e2
    refine ⟨by rw [e1]; rfl, by rw [e2]; rfl, ?_, ?_⟩
    · intro p
      rw [e1, e2]
      simp only [circleIntersectWinding, windingOfOption, windingOfSum]
      exact ArcPolygon.winding_pair_swap _ _ p
    · rw [e1, e2]
      simp only [circleIntersectMoment, momentOfOption, momentOfSum]
      rw [ArcPolygon.moment_pair, ArcPolygon.moment_pair]
      exact merge_chain_area_close _ _ (DiskSegment.moment_area_nonneg _)
        (DiskSegment.moment_area_nonneg _)
  · have hgt2 : ¬|c2.radius - c1.radius| < (c1.center - c2.center).length := by
      rw [Vec2.length_sub_comm, abs_sub_comm]
      exact hgt
    have e1 : c1.intersect c2 =
        if c1.radius < c2.radius then some (Sum.inr c1) else some (Sum.inr c2) := by
      simp only [Circle.intersect]
      rw [if_pos h, if_neg hgt]
    have e2 : c2.intersect c1 =
        if c2.radius < c1.radius then some (Sum.inr c2) else some (Sum.inr c1) := by
      simp only [Circle.intersect]
      rw [if_pos h', if_neg hgt2]
    rcases lt_trichotomy c1.radius c2.radius with hr | hr | hr
    · rw [if_pos hr] at e1
      rw [if_neg (by linarith)] at e2
      rw [e1, e2]
      exact ⟨rfl, rfl, fun p => rfl, by rw [sub_self, abs_zero]; exact EPS_pos⟩
    · have hd_le : (c2.center - c1.center).length ≤ |c1.radius - c2.radius| :=
        not_lt.mp hgt
      rw [hr, sub_self, abs_zero] at hd_le
      have hd0 : (c2.center - c1.center).length = 0 :=
        le_antisymm hd_le (Vec2.length_nonneg _)
      have hcent : c1.center = c2.center := Vec2.eq_of_length_sub_eq_zero hd0
      have hceq : c1 = c2 := by
        cases c1
        cases c2
        simp only [Circle.mk.injEq]
        exact ⟨hcent, hr⟩
      rw [if_neg (by rw [hr]; exact lt_irrefl _)] at e1
      rw [if_neg (by rw [hr]; exact lt_irrefl _)] at e2
      rw [e1, e2, hceq]
      exact ⟨rfl, rfl, fun p => rfl, by rw [sub_self, abs_zero]; exact EPS_pos⟩
    · rw [if_neg (by linarith)] at e1
      rw [if_pos hr] at e2
      rw [e1, e2]
      exact ⟨rfl, rfl, fun p => rfl, by rw [sub_self, abs_zero]; exact EPS_pos⟩

/-- Witness for C4 at the unit circles centered at `(0,0)` and `(1,0)`. -/
theorem disk_intersect_symmetry_amended_witness :
    ((⟨⟨1, 0⟩, 1⟩ : Circle).center - (⟨⟨0, 0⟩, 1⟩ : Circle).center).length <
        (⟨⟨0, 0⟩, 1⟩ : Circle).radius + (⟨⟨1, 0⟩, 1⟩ : Circle).radius ∧
      ((⟨⟨0, 0⟩, 1⟩ : Circle).intersect ⟨⟨1, 0⟩, 1⟩).isSome = true := by
  have hh : ((⟨⟨1, 0⟩, 1⟩ : Circle).center - (⟨⟨0, 0⟩, 1⟩ : Circle).center).length <
      (⟨⟨0, 0⟩, 1⟩ : Circle).radius + (⟨⟨1, 0⟩, 1⟩ : Circle).radius := by
    show ((⟨1, 0⟩ : Vec2) - ⟨0, 0⟩).length < 1 + 1
    simp only [Vec2.length, Vec2.sub_x, Vec2.sub_y, Vec2.mk_x, Vec2.mk_y]
    rw [sqrt_eq_of_sq _ 1 (by norm_num) (by norm_num)]
    norm_num
  exact ⟨hh, (disk_intersect_symmetry_amended ⟨⟨0, 0⟩, 1⟩ ⟨⟨1, 0⟩, 1⟩ hh).1⟩

theorem DiskSegment.moment_thin_up (x h s q : ℝ) (hh : 0 < h) (hsE : EPS ≤ s)
    (hq : q ^ 2 = h ^ 2 + s ^ 2) (hq0 : 0 ≤ q)
    (hbr : s * (20000 * s) ≤ h ^ 2 + s ^ 2)
    (hcos : 2 * s ^ 2 < h ^ 2 + s ^ 2) :
    DiskSegment.moment ⟨⟨(⟨x, -h⟩, ⟨x, h⟩), s⟩⟩ =
      ⟨4 / 3 * s * q, ⟨x + 7 / 10 * s, 0⟩⟩ := by
  have hs0 : 0 < s := lt_of_lt_of_le EPS_pos hsE
  have hq0' : 0 < q := by nlinarith
  have habs : |s| = s := abs_of_pos hs0
  have hlen : (Vec2.mk x h - Vec2.mk x (-h)).length = 2 * h := by
    simp only [Vec2.length, Vec2.sub_x, Vec2.sub_y, Vec2.mk_x, Vec2.mk_y]
    rw [show (x - x) ^ 2 + (h - -h) ^ 2 = (2 * h) ^ 2 by ring]
    exact Real.sqrt_sq (by linarith)
  simp only [DiskSegment.moment, habs, hlen]
  rw [show (0.5 : ℝ) * (2 * h) = h by ring]
  rw [if_neg (not_lt.mpr hsE)]
  have hRr : h ^ 2 + s ^ 2 = q ^ 2 := hq.symm
  rw [if_neg (show ¬(APPROX_CIRCLE * ((h ^ 2 + s ^ 2) / (2 * s)) < s) by
    rw [not_lt, APPROX_CIRCLE,
      show (1 / 10000 : ℝ) * ((h ^ 2 + s ^ 2) / (2 * s)) =
        (h ^ 2 + s ^ 2) / (20000 * s) by ring,
      le_div_iff₀ (by linarith : (0 : ℝ) < 20000 * s)]
    exact hbr)]
  have hsr : s / ((h ^ 2 + s ^ 2) / (2 * s)) = 2 * s ^ 2 / q ^ 2 := by
    rw [hq]
    field_simp
    ring
  rw [hsr]
  have hcp : 0 < 1 - 2 * s ^ 2 / q ^ 2 := by
    rw [sub_pos, div_lt_one (by positivity)]
    linarith [hq]
  rw [if_pos hcp, abs_of_pos hcp]
  rw [show (1 : ℝ) - (1 - 2 * s ^ 2 / q ^ 2) = 2 * s ^ 2 / q ^ 2 by ring]
  have hsq2 : Real.sqrt (2 * (2 * s ^ 2 / q ^ 2)) = 2 * s / q := by
    apply sqrt_eq_of_sq _ _ (by positivity)
    rw [div_pow]
    ring
  rw [hsq2]
  have hnorm : -((Vec2.mk x h - Vec2.mk x (-h)).perp) / (2 * h) * sgn s =
      Vec2.mk 1 0 := by
    rw [Vec2.ext_iff]
    simp only [Vec2.perp_x, Vec2.perp_y, Vec2.neg_x, Vec2.neg_y, Vec2.sub_x, Vec2.sub_y,
      Vec2.mk_x, Vec2.mk_y, Vec2.div_x, Vec2.div_y, Vec2.smul_right_x, Vec2.smul_right_y,
      sgn, if_pos hs0.le]
    constructor
    · field_simp
      ring
    · ring
  rw [hnorm]
  rw [Moment.mk.injEq]
  constructor
  · field_simp
    linear_combination (-48 * s ^ 3 * (q ^ 2 + h ^ 2 + s ^ 2)) * hq
  · rw [Vec2.ext_iff]
    simp only [Vec2.add_x, Vec2.add_y, Vec2.smul_left_x, Vec2.smul_left_y,
      Vec2.smul_right_x, Vec2.smul_right_y, Vec2.mk_x, Vec2.mk_y]
    constructor
    · field_simp
      linear_combination (60 * s ^ 2) * hq
    · field_simp

theorem DiskSegment.moment_thin_down (x h s q : ℝ) (hh : 0 < h) (hsE : EPS ≤ s)
    (hq : q ^ 2 = h ^ 2 + s ^ 2) (hq0 : 0 ≤ q)
    (hbr : s * (20000 * s) ≤ h ^ 2 + s ^ 2)
    (hcos : 2 * s ^ 2 < h ^ 2 + s ^ 2) :
    DiskSegment.moment ⟨⟨(⟨x, h⟩, ⟨x, -h⟩), s⟩⟩ =
      ⟨4 / 3 * s * q, ⟨x - 7 / 10 * s, 0⟩⟩ := by
  have hs0 : 0 < s := lt_of_lt_of_le EPS_pos hsE
  have hq0' : 0 < q := by nlinarith
  have habs : |s| = s := abs_of_pos hs0
  have hlen : (Vec2.mk x (-h) - Vec2.mk x h).length = 2 * h := by
    simp only [Vec2.length, Vec2.sub_x, Vec2.sub_y, Vec2.mk_x, Vec2.mk_y]
    rw [show (x - x) ^ 2 + (-h - h) ^ 2 = (2 * h) ^ 2 by ring]
    exact Real.sqrt_sq (by linarith)
  simp only [DiskSegment.moment, habs, hlen]
  rw [show (0.5 : ℝ) * (2 * h) = h by ring]
  rw [if_neg (not_lt.mpr hsE)]
  rw [if_neg (show ¬(APPROX_CIRCLE * ((h ^ 2 + s ^ 2) / (2 * s)) < s) by
    rw [not_lt, APPROX_CIRCLE,
      show (1 / 10000 : ℝ) * ((h ^ 2 + s ^ 2) / (2 * s)) =
        (h ^ 2 + s ^ 2) / (20000 * s) by ring,
      le_div_iff₀ (by linarith : (0 : ℝ) < 20000 * s)]
    exact hbr)]
  have hsr : s / ((h ^ 2 + s ^ 2) / (2 * s)) = 2 * s ^ 2 / q ^ 2 := by
    rw [hq]
    field_simp
    ring
  rw [hsr]
  have hcp : 0 < 1 - 2 * s ^ 2 / q ^ 2 := by
    rw [sub_pos, div_lt_one (by positivity)]
    linarith [hq]
  rw [if_pos hcp, abs_of_pos hcp]
  rw [show (1 : ℝ) - (1 - 2 * s ^ 2 / q ^ 2) = 2 * s ^ 2 / q ^ 2 by ring]
  have hsq2 : Real.sqrt (2 * (2 * s ^ 2 / q ^ 2)) = 2 * s / q := by
    apply sqrt_eq_of_sq _ _ (by positivity)
    rw [div_pow]
    ring
  rw [hsq2]
  have hnorm : -((Vec2.mk x (-h) - Vec2.mk x h).perp) / (2 * h) * sgn s =
      Vec2.mk (-1) 0 := by
    rw [Vec2.ext_iff]
    simp only [Vec2.perp_x, Vec2.perp_y, Vec2.neg_x, Vec2.neg_y, Vec2.sub_x, Vec2.sub_y,
      Vec2.mk_x, Vec2.mk_y, Vec2.div_x, Vec2.div_y, Vec2.smul_right_x, Vec2.smul_right_y,
      sgn, if_pos hs0.le]
    constructor
    · field_simp
      ring
    · ring
  rw [hnorm]
  rw [Moment.mk.injEq]
  constructor
  · field_simp
    linear_combination (-48 * s ^ 3 * (q ^ 2 + h ^ 2 + s ^ 2)) * hq
  · rw [Vec2.ext_iff]
    simp only [Vec2.add_x, Vec2.add_y, Vec2.smul_left_x, Vec2.smul_left_y,
      Vec2.smul_right_x, Vec2.smul_right_y, Vec2.mk_x, Vec2.mk_y]
    constructor
    · field_simp
      linear_combination (-60 * s ^ 2) * hq
    · field_simp

/-- C4 counterexample: for the circle of radius
`1125350285230081/140685952942080 ≈ 8.0` at the origin and the circle of
radius `1124251846918225/421748721844224 ≈ 2.67` at
`(12572234083067848984567/1178863065138635735040, 0) ≈ (10.66, 0)`, both
orders of `Circle::intersect` produce the same thin lens (two disk
segments of areas `≈ 4.97e-9` and `≈ 1.49e-8`), but `Moment::merge`
zeroes the sub-`EPS` first segment in one merge order and keeps it in the
other, so the merged centroids differ by `≈ 6.7e-7 > EPS` and the two
results are not approximately equal. -/
theorem disk_intersect_symmetry_cex :
    ¬ MomentApproxEq EPS
      (circleIntersectMoment
        ((⟨⟨0, 0⟩, 1125350285230081 / 140685952942080⟩ : Circle).intersect
          ⟨⟨12572234083067848984567 / 1178863065138635735040, 0⟩,
            1124251846918225 / 421748721844224⟩))
      (circleIntersectMoment
        ((⟨⟨12572234083067848984567 / 1178863065138635735040, 0⟩,
            1124251846918225 / 421748721844224⟩ : Circle).intersect
          ⟨⟨0, 0⟩, 1125350285230081 / 140685952942080⟩)) := by
  have hlen : ((⟨12572234083067848984567 / 1178863065138635735040, 0⟩ : Vec2) -
      ⟨0, 0⟩).length = 12572234083067848984567 / 1178863065138635735040 := by
    simp only [Vec2.length, Vec2.sub_x, Vec2.sub_y, Vec2.mk_x, Vec2.mk_y]
    exact sqrt_eq_of_sq _ _ (by norm_num) (by norm_num)
  have hlen2 : ((⟨0, 0⟩ : Vec2) -
      ⟨12572234083067848984567 / 1178863065138635735040, 0⟩).length =
      12572234083067848984567 / 1178863065138635735040 := by
    simp only [Vec2.length, Vec2.sub_x, Vec2.sub_y, Vec2.mk_x, Vec2.mk_y]
    exact sqrt_eq_of_sq _ _ (by norm_num) (by norm_num)
  have hgtL : |(1125350285230081 / 140685952942080 : ℝ) -
      1124251846918225 / 421748721844224| <
      ((⟨12572234083067848984567 / 1178863065138635735040, 0⟩ : Vec2) -
        ⟨0, 0⟩).length := by
    rw [hlen, abs_of_pos (by norm_num)]
    norm_num
  have hltL : ((⟨12572234083067848984567 / 1178863065138635735040, 0⟩ : Vec2) -
      ⟨0, 0⟩).length < 1125350285230081 / 140685952942080 +
      1124251846918225 / 421748721844224 := by
    rw [hlen]
    norm_num
  have hgtL2 : |(1124251846918225 / 421748721844224 : ℝ) -
      1125350285230081 / 140685952942080| <
      ((⟨0, 0⟩ : Vec2) -
        ⟨12572234083067848984567 / 1178863065138635735040, 0⟩).length := by
    rw [hlen2, abs_of_neg (by norm_num)]
    norm_num
  have hltL2 : ((⟨0, 0⟩ : Vec2) -
      ⟨12572234083067848984567 / 1178863065138635735040, 0⟩).length <
      1124251846918225 / 421748721844224 + 1125350285230081 / 140685952942080 := by
    rw [hlen2]
    norm_num
  have e1 := Circle.intersect_lens
    ⟨⟨0, 0⟩, 1125350285230081 / 140685952942080⟩
    ⟨⟨12572234083067848984567 / 1178863065138635735040, 0⟩,
      1124251846918225 / 421748721844224⟩ hgtL hltL
  have e2 := Circle.intersect_lens
    ⟨⟨12572234083067848984567 / 1178863065138635735040, 0⟩,
      1124251846918225 / 421748721844224⟩
    ⟨⟨0, 0⟩, 1125350285230081 / 140685952942080⟩ hgtL2 hltL2
  obtain ⟨w0, w1⟩ := lens_swap
    ⟨⟨0, 0⟩, 1125350285230081 / 140685952942080⟩
    ⟨⟨12572234083067848984567 / 1178863065138635735040, 0⟩,
      1124251846918225 / 421748721844224⟩ hgtL
  rw [w0, w1] at e2
  have hap : (0.5 : ℝ) * (12572234083067848984567 / 1178863065138635735040 +
      ((1125350285230081 / 140685952942080) ^ 2 -
        (1124251846918225 / 421748721844224) ^ 2) /
        (12572234083067848984567 / 1178863065138635735040)) =
      1125350151045119 / 140685952942080 := by norm_num
  have hsqrt : Real.sqrt ((1125350285230081 / 140685952942080 : ℝ) ^ 2 -
      (1125350151045119 / 140685952942080) ^ 2) = 1 / 256 :=
    sqrt_eq_of_sq _ _ (by norm_num) (by norm_num)
  have hv0 : lensV0 ⟨⟨0, 0⟩, 1125350285230081 / 140685952942080⟩
      ⟨⟨12572234083067848984567 / 1178863065138635735040, 0⟩,
        1124251846918225 / 421748721844224⟩ =
      ⟨⟨1125350151045119 / 140685952942080, -(1 / 256)⟩, 8191 / 8587837440⟩ := by
    simp only [lensV0, Circle.center_mk, Circle.radius_mk]
    rw [hlen, hap, hsqrt]
    rw [ArcVertex.mk.injEq]
    constructor
    · rw [Vec2.ext_iff]
      simp only [Vec2.add_x, Vec2.add_y, Vec2.sub_x, Vec2.sub_y, Vec2.div_x, Vec2.div_y,
        Vec2.perp_x, Vec2.perp_y, Vec2.smul_right_x, Vec2.smul_right_y,
        Vec2.mk_x, Vec2.mk_y]
      constructor <;> norm_num
    · norm_num
  have hv1 : lensV1 ⟨⟨0, 0⟩, 1125350285230081 / 140685952942080⟩
      ⟨⟨12572234083067848984567 / 1178863065138635735040, 0⟩,
        1124251846918225 / 421748721844224⟩ =
      ⟨⟨1125350151045119 / 140685952942080, 1 / 256⟩, 24567 / 8583643136⟩ := by
    simp only [lensV1, Circle.center_mk, Circle.radius_mk]
    rw [hlen, hap, hsqrt]
    rw [ArcVertex.mk.injEq]
    constructor
    · rw [Vec2.ext_iff]
      simp only [Vec2.add_x, Vec2.add_y, Vec2.sub_x, Vec2.sub_y, Vec2.div_x, Vec2.div_y,
        Vec2.perp_x, Vec2.perp_y, Vec2.smul_right_x, Vec2.smul_right_y,
        Vec2.mk_x, Vec2.mk_y]
      constructor <;> norm_num
    · norm_num
  rw [hv0, hv1] at e1 e2
  have hS1 := DiskSegment.moment_thin_up (1125350151045119 / 140685952942080) (1 / 256)
    (8191 / 8587837440) (33546241 / 8587837440)
    (by norm_num) (by norm_num [EPS]) (by norm_num) (by norm_num) (by norm_num)
    (by norm_num)
  have hS2 := DiskSegment.moment_thin_down (1125350151045119 / 140685952942080) (1 / 256)
    (24567 / 8583643136) (33529865 / 8583643136)
    (by norm_num) (by norm_num [EPS]) (by norm_num) (by norm_num) (by norm_num)
    (by norm_num)
  have hmerge0 : (Moment.mk 0 ⟨0, 0⟩).merge
      ⟨4 / 3 * (8191 / 8587837440) * (33546241 / 8587837440),
        ⟨1125350151045119 / 140685952942080 + 7 / 10 * (8191 / 8587837440), 0⟩⟩ =
      Moment.mk 0 ⟨0, 0⟩ := by
    rw [Moment.merge_eval]
    simp only [Moment.area_mk, Moment.centroid_mk, zero_add]
    rw [if_pos (show |(4 / 3 * (8191 / 8587837440) * (33546241 / 8587837440) : ℝ)| <
        EPS by rw [abs_of_pos (by norm_num)]; norm_num [EPS])]
    rfl
  have hmergeA2 : (Moment.mk 0 ⟨0, 0⟩).merge
      ⟨4 / 3 * (24567 / 8583643136) * (33529865 / 8583643136),
        ⟨1125350151045119 / 140685952942080 - 7 / 10 * (24567 / 8583643136), 0⟩⟩ =
      ⟨274576064485 / 18419732371549978624,
        ⟨2303028507292922683 / 287913802695966720, 0⟩⟩ := by
    rw [Moment.merge_eval]
    simp only [Moment.area_mk, Moment.centroid_mk, zero_add]
    rw [if_neg (show ¬ |(4 / 3 * (24567 / 8583643136) * (33529865 / 8583643136) : ℝ)| <
        EPS by rw [not_lt, abs_of_pos (by norm_num)]; norm_num [EPS])]
    rw [Moment.mk.injEq]
    constructor
    · norm_num
    · rw [Vec2.ext_iff]
      simp only [Vec2.div_x, Vec2.div_y, Vec2.add_x, Vec2.add_y,
        Vec2.smul_right_x, Vec2.smul_right_y, Vec2.mk_x, Vec2.mk_y]
      constructor <;> norm_num
  have hmergeFin : (Moment.mk (274576064485 / 18419732371549978624)
      ⟨2303028507292922683 / 287913802695966720, 0⟩).merge
      ⟨4 / 3 * (8191 / 8587837440) * (33546241 / 8587837440),
        ⟨1125350151045119 / 140685952942080 + 7 / 10 * (8191 / 8587837440), 0⟩⟩ =
      ⟨9208182829866401747 / 463321428947746320442982400,
        ⟨3236479660522178203126751505267973 / 404609446075719382256982137241600,
          0⟩⟩ := by
    rw [Moment.merge_eval]
    simp only [Moment.area_mk, Moment.centroid_mk]
    rw [if_neg (show ¬ |(274576064485 / 18419732371549978624 +
        4 / 3 * (8191 / 8587837440) * (33546241 / 8587837440) : ℝ)| < EPS by
      rw [not_lt, abs_of_pos (by norm_num)]; norm_num [EPS])]
    rw [Moment.mk.injEq]
    constructor
    · norm_num
    · rw [Vec2.ext_iff]
      simp only [Vec2.div_x, Vec2.div_y, Vec2.add_x, Vec2.add_y,
        Vec2.smul_right_x, Vec2.smul_right_y, Vec2.mk_x, Vec2.mk_y]
      constructor <;> norm_num
  have hm12 : circleIntersectMoment
      ((⟨⟨0, 0⟩, 1125350285230081 / 140685952942080⟩ : Circle).intersect
        ⟨⟨12572234083067848984567 / 1178863065138635735040, 0⟩,
          1124251846918225 / 421748721844224⟩) =
      ⟨274576064485 / 18419732371549978624,
        ⟨2303028507292922683 / 287913802695966720, 0⟩⟩ := by
    rw [e1]
    simp only [circleIntersectMoment, momentOfOption, momentOfSum]
    rw [ArcPolygon.moment_pair]
    simp only [ArcVertex.point_mk, ArcVertex.sagitta_mk]
    rw [hS1, hS2, hmerge0, hmergeA2]
  have hm21 : circleIntersectMoment
      ((⟨⟨12572234083067848984567 / 1178863065138635735040, 0⟩,
          1124251846918225 / 421748721844224⟩ : Circle).intersect
        ⟨⟨0, 0⟩, 1125350285230081 / 140685952942080⟩) =
      ⟨9208182829866401747 / 463321428947746320442982400,
        ⟨3236479660522178203126751505267973 / 404609446075719382256982137241600,
          0⟩⟩ := by
    rw [e2]
    simp only [circleIntersectMoment, momentOfOption, momentOfSum]
    rw [ArcPolygon.moment_pair]
    simp only [ArcVertex.point_mk, ArcVertex.sagitta_mk]
    rw [hS2, hS1, hmergeA2, hmergeFin]
  intro hM
  rw [hm12, hm21] at hM
  simp only [MomentApproxEq, Moment.area_mk, Moment.centroid_mk,
    Vec2.mk_x, Vec2.mk_y] at hM
  obtain ⟨-, hX, -⟩ := hM
  rw [abs_of_neg (by norm_num)] at hX
  norm_num [EPS] at hX

end Geom2
